import Mathlib

/-!
Verification development for the `apiprober` repository.

The Python sources are shallowly embedded: Python `str` values are modelled
as Lean `String` (a sequence of unicode code points, matching Python's
string semantics), with slicing/splitting helpers defined on the underlying
character list. Python dicts and sets that the claims only constrain at
membership level are modelled as association lists / lists. External
collaborators of the code under scrutiny (the `json` parser, the regular
expression engine, `urllib` transport and robots parsing, the file
system and the wall clock) are passed in as explicit parameters or
oracles; everything the repository itself computes is translated
definition by definition from the sources.
-/

/-! ## String helpers (Python `str` operations on `List Char`) -/

/-- Python `len(s)` and `s[:n]` operate on code points; `pyTake` models the
slice `s[:n]` on the character list of a string. -/
def pyTake (s : String) (n : Nat) : String :=
  String.mk (s.data.take n)

/-- Model of Python `sub in s` (substring containment) on character lists. -/
def charsContains (hay needle : List Char) : Bool :=
  hay.tails.any (fun t => needle.isPrefixOf t)

/-- Model of Python `sub in s` for strings. -/
def strContains (hay needle : String) : Bool :=
  charsContains hay.data needle.data

/-- Model of Python `s.lower()` (ASCII-adequate: `Char.toLower`). -/
def pyLower (s : String) : String :=
  String.mk (s.data.map Char.toLower)

/-- Model of Python `s.upper()`. -/
def pyUpper (s : String) : String :=
  String.mk (s.data.map Char.toUpper)

/-- Model of Python `s.strip()`: drop whitespace from both ends. -/
def pyStrip (s : String) : String :=
  String.mk (((s.data.dropWhile Char.isWhitespace).reverse.dropWhile
      Char.isWhitespace).reverse)

/-- Splits a character list at every occurrence of `c` (Python
`s.split(c)` for a one-character separator). -/
def splitOnChar (c : Char) : List Char → List (List Char)
  | [] => [[]]
  | a :: rest =>
    let r := splitOnChar c rest
    if a = c then [] :: r
    else
      match r with
      | [] => [[a]]
      | h :: t => (a :: h) :: t

/-- Model of Python `s.split(c)[0]`: the prefix before the first `c`. -/
def headBefore (c : Char) (s : String) : String :=
  String.mk (s.data.takeWhile (fun a => a ≠ c))

/-- Model of Python `s.split(c)` returning strings. -/
def pySplitChar (c : Char) (s : String) : List String :=
  (splitOnChar c s.data).map String.mk

/-- Model of Python `s.split()` (split on whitespace runs, dropping
empty fields). -/
def pySplitWs (s : String) : List String :=
  ((splitOnChar ' ' (s.data.map (fun c => if c.isWhitespace then ' ' else c))).map
      String.mk).filter (fun t => t ≠ "")

/-- Model of Python `s.rstrip("/")`: drop all trailing slashes. -/
def rstripSlashChars (l : List Char) : List Char :=
  (l.reverse.dropWhile (fun c => c = '/')).reverse

/-- Model of Python `s.rstrip("/")` on strings. -/
def rstripSlash (s : String) : String :=
  String.mk (rstripSlashChars s.data)

/-- Model of Python `s.startswith(p)`. -/
def pyStartsWith (s p : String) : Bool :=
  p.data.isPrefixOf s.data

/-- Model of Python `s.endswith(p)` for a one-character suffix. -/
def endsWithChar (s : String) (c : Char) : Bool :=
  s.data.getLast? = some c

/-- Lexicographic comparison on the character lists, used to model
Python `sorted` on strings (both orders compare code points). -/
def charsLe : List Char → List Char → Bool
  | [], _ => true
  | _ :: _, [] => false
  | a :: as, b :: bs =>
    if a = b then charsLe as bs else decide (a < b)

/-- String order backing `sorted(...)` in the sources. -/
def strLe (a b : String) : Bool :=
  charsLe a.data b.data

/-- Model of Python `sorted(xs)` for strings (insertion sort: stable, and
total on the order above; only the membership of the result matters to the
claims). -/
def pySorted (xs : List String) : List String :=
  xs.foldr (fun a acc => acc.orderedInsert (fun x y => strLe x y = true) a) []

/-- First-occurrence deduplication, modelling iteration over a Python
`set` built by successive `add` calls (membership-level model). -/
def dedupFirst (xs : List String) : List String :=
  xs.foldl (fun acc x => if acc.contains x then acc else acc ++ [x]) []

/-- Association-list lookup modelling `dict.get(key, default)` for
string-valued dictionaries (first binding wins, as Python dict keys are
unique). -/
def assocGetD (kvs : List (String × String)) (key dflt : String) : String :=
  match kvs.find? (fun kv => kv.1 = key) with
  | some kv => kv.2
  | none => dflt

/-- Model of `key in dict` for string association lists. -/
def assocHas (kvs : List (String × String)) (key : String) : Bool :=
  kvs.any (fun kv => kv.1 = key)

/-! ## JSON values

Python values produced by `json.loads` are modelled as a tagged sum,
distinguishing `int` from `float` as the sources do via `isinstance`.
Objects are association lists with (by construction of `json.loads`)
unique keys. -/

inductive Json where
  | null : Json
  | bool (b : Bool) : Json
  | int (n : Int) : Json
  | float (q : Rat) : Json
  | str (s : String) : Json
  | arr (xs : List Json) : Json
  | obj (kvs : List (String × Json)) : Json
deriving Repr

/-- Python truthiness (`if x:`) for the JSON-valued variants. -/
def jsonTruthy : Json → Bool
  | .null => false
  | .bool b => b
  | .int n => n ≠ 0
  | .float q => q ≠ 0
  | .str s => s ≠ ""
  | .arr xs => !xs.isEmpty
  | .obj kvs => !kvs.isEmpty

/-- Lookup modelling `d[key]` / `d.get(key)` on a JSON object's fields. -/
def jsonLookup (kvs : List (String × Json)) (key : String) : Option Json :=
  match kvs.find? (fun kv => kv.1 = key) with
  | some kv => some kv.2
  | none => none

/-- Model of `d.get(key, default)` where the caller expects a string; a
present non-string value is not modelled (the sources would propagate the
raw object into a string field via formatting, which no claim exercises). -/
def jsonGetStrD (kvs : List (String × Json)) (key dflt : String) : String :=
  match jsonLookup kvs key with
  | some (.str s) => s
  | _ => dflt

/-- Model of `key in d` on JSON objects. -/
def jsonHasKey (kvs : List (String × Json)) (key : String) : Bool :=
  kvs.any (fun kv => kv.1 = key)

/-- Model of iterating `for x in v` where the sources expect a JSON
array (`isinstance` guards in the sources skip other shapes). -/
def jsonAsList : Json → List Json
  | .arr xs => xs
  | _ => []

/-! ## `core/schema_extractor.py` -/

mutual

/-- Embedding of `extract_schema` (src/core/schema_extractor.py): derives
a compact shape descriptor from a parsed JSON value. The descriptor is
itself a JSON object, mirroring the Python dict the source builds, with
fields in the source's insertion order. -/
def extract_schema : Json → Json
  | .null => .obj [("type", .str "null")]
  | .bool _ => .obj [("type", .str "boolean")]
  | .int _ => .obj [("type", .str "integer")]
  | .float _ => .obj [("type", .str "number")]
  | .str s =>
    if s.length > 0 then
      .obj [("type", .str "string"), ("example_length", .int s.length)]
    else
      .obj [("type", .str "string")]
  | .arr xs =>
    .obj ([("type", .str "array"), ("length", .int xs.length)] ++
      (match xs with
       | [] => []
       | x :: _ => [("items", extract_schema x)]))
  | .obj kvs =>
    .obj [("type", .str "object"),
          ("properties", .obj (extract_schema_fields kvs)),
          ("field_count", .int kvs.length)]

/-- The `properties` dictionary of the object case: schema of every value,
keyed by the original field names. -/
def extract_schema_fields : List (String × Json) → List (String × Json)
  | [] => []
  | (k, v) :: rest => (k, extract_schema v) :: extract_schema_fields rest

end

/-- Embedding of `extract_schema_from_body`: empty/whitespace bodies and
parse failures yield the empty dict (modelled as `none`); the `jparse`
parameter stands for the external `json.loads` (returning `none` where
Python raises). -/
def extract_schema_from_body (jparse : String → Option Json) (body : String) :
    Option Json :=
  if body = "" ∨ pyStrip body = "" then none
  else
    match jparse body with
    | some data => some (extract_schema data)
    | none => none

mutual

/-- Embedding of `_walk_for_links` at set level: the source first walks the
values of the HATEOAS keys and of `_links`, then walks every value of the
mapping — the dedicated key walks add the same elements to the result set
as the walk over all values, so the collected set is the union over string
leaves, all mapping values, and the first 50 elements of every sequence. -/
def walk_for_links (base_url : String) : Json → List String
  | .str s =>
    if pyStartsWith s "http://" || pyStartsWith s "https://" then
      if base_url ≠ "" && pyStartsWith s base_url then [s] else []
    else if pyStartsWith s "/" && !(pyStartsWith s "//") then [s]
    else []
  | .obj kvs => walk_links_fields base_url kvs
  | .arr xs => walk_links_list base_url 50 xs
  | _ => []

/-- Walk over all values of a mapping. -/
def walk_links_fields (base_url : String) : List (String × Json) → List String
  | [] => []
  | (_, v) :: rest => walk_for_links base_url v ++ walk_links_fields base_url rest

/-- Walk over the elements of a sequence; the fuel argument models the
`data[:50]` bound of the source. -/
def walk_links_list (base_url : String) : Nat → List Json → List String
  | _, [] => []
  | 0, _ :: _ => []
  | n + 1, x :: rest => walk_for_links base_url x ++ walk_links_list base_url n rest

end

/-- Embedding of `extract_links_from_json`: the result is a Python set;
it is modelled as the first-occurrence deduplication of the walk. -/
def extract_links_from_json (data : Json) (base_url : String) : List String :=
  dedupFirst (walk_for_links base_url data)

/-! ## `core/database.py`

The SQLite store is modelled per service: the claims only concern rows of
one service (endpoint paths are unique per service, responses and
parameters hang off endpoints). JSON-encoded set columns are modelled as
lists whose membership is the stored set's membership; `sorted(set(...))`
round-trips preserve exactly that membership. -/

/-- One row of the `services` table (timestamps are produced by the wall
clock and are not modelled beyond being set). -/
structure ServiceRow where
  base_url : String
  description : String
  server_header : String
  robots_txt : String
  metadata : List (String × Json)
deriving Repr

/-- Arguments of `Database.upsert_service` (defaults as in the source). -/
structure ServiceUpsert where
  base_url : String
  description : String := ""
  server_header : String := ""
  robots_txt : String := ""
  metadata : List (String × Json) := []
deriving Repr

/-- Embedding of `Database.upsert_service` for one service name: insert
when absent, otherwise the `ON CONFLICT` update: `base_url` is always
overwritten; description / server header / robots text only when the
incoming value is non-empty; metadata only when the serialized incoming
mapping differs from `'{}'` — i.e. when the incoming mapping is non-empty
(`json.dumps(metadata or {})` produces the two-brace string exactly for
the empty mapping). -/
def upsert_service (row : Option ServiceRow) (u : ServiceUpsert) : ServiceRow :=
  match row with
  | none =>
    { base_url := u.base_url,
      description := u.description,
      server_header := u.server_header,
      robots_txt := u.robots_txt,
      metadata := u.metadata }
  | some old =>
    { base_url := u.base_url,
      description := if u.description ≠ "" then u.description else old.description,
      server_header := if u.server_header ≠ "" then u.server_header else old.server_header,
      robots_txt := if u.robots_txt ≠ "" then u.robots_txt else old.robots_txt,
      metadata := if !u.metadata.isEmpty then u.metadata else old.metadata }

/-- One row of the `endpoints` table (the numeric id is replaced by the
`(service, path)` key, unique by the table's constraint). -/
structure EndpointRow where
  path : String
  methods : List String
  status_codes : List Int
  auth_required : Bool
  auth_type_hint : String
  content_types : List String
  discovered_by : String
deriving Repr

/-- Arguments of `Database.upsert_endpoint` (defaults as in the source). -/
structure EndpointUpsert where
  path : String
  methods : List String := []
  status_codes : List Int := []
  auth_required : Bool := false
  auth_type_hint : String := ""
  content_types : List String := []
  discovered_by : String := ""
deriving Repr

/-- Union of a stored JSON-encoded set with new elements, modelling
`set(json.loads(old)).update(new)` followed by `json.dumps(sorted(...))`
at membership level (the stored order is irrelevant to every claim);
instantiated at strings for methods/content types and at integers for
status codes. -/
def setUnion {α : Type} [BEq α] (old new : List α) : List α :=
  new.foldl (fun acc m => if acc.contains m then acc else acc ++ [m]) old

/-- Embedding of `Database.upsert_endpoint` acting on the endpoint rows of
one service. On an existing `(service, path)` row the three sets are
unioned with the provided ones (the source guards each union with a
truthiness check, a no-op for empty inputs), `auth_required` is
OR-latched (`CASE WHEN ? THEN 1 ELSE auth_required END`) and
`auth_type_hint` is overwritten only when the incoming hint is non-empty;
otherwise a fresh row is inserted with exactly the provided values. -/
def upsert_endpoint (endpoints : List EndpointRow) (u : EndpointUpsert) :
    List EndpointRow :=
  if endpoints.any (fun e => e.path = u.path) then
    endpoints.map (fun e =>
      if e.path = u.path then
        { e with
          methods := setUnion e.methods u.methods,
          status_codes := setUnion e.status_codes u.status_codes,
          content_types := setUnion e.content_types u.content_types,
          auth_required := if u.auth_required then true else e.auth_required,
          auth_type_hint :=
            if u.auth_type_hint ≠ "" then u.auth_type_hint else e.auth_type_hint }
      else e)
  else
    endpoints ++ [{
      path := u.path,
      methods := u.methods,
      status_codes := u.status_codes,
      auth_required := u.auth_required,
      auth_type_hint := u.auth_type_hint,
      content_types := u.content_types,
      discovered_by := u.discovered_by }]

/-- One row of the `responses` table, keyed here by the endpoint's path. -/
structure ResponseRow where
  endpoint_path : String
  method : String
  status_code : Int
  headers : List (String × String)
  body_schema : Option Json
  body_sample : String
  content_type : String
  elapsed_ms : Nat
deriving Repr

/-- Embedding of `Database.add_response`: the body sample is truncated to
its first 2048 characters (`body_sample[:2048]` slices code points) and
the row is appended unconditionally — a plain `INSERT`, no conflict
clause, no deduplication. -/
def add_response (responses : List ResponseRow) (endpoint_path method : String)
    (status_code : Int) (headers : List (String × String))
    (body_schema : Option Json) (body_sample : String)
    (content_type : String) (elapsed_ms : Nat) : List ResponseRow :=
  let sample := if body_sample.length > 2048 then pyTake body_sample 2048
                else body_sample
  responses ++ [{
    endpoint_path := endpoint_path,
    method := method,
    status_code := status_code,
    headers := headers,
    body_schema := body_schema,
    body_sample := sample,
    content_type := content_type,
    elapsed_ms := elapsed_ms }]

/-- One row of the `parameters` table, keyed by `(path, name, location)`. -/
structure ParameterRow where
  endpoint_path : String
  name : String
  param_type : String
  location : String
  required : Bool
  example_value : String
deriving Repr

/-- Embedding of `Database.upsert_parameter`: on conflict the type is
overwritten, `required` is OR-latched and the example value only
overwritten when non-empty. -/
def upsert_parameter (params : List ParameterRow) (endpoint_path name : String)
    (param_type : String := "string") (location : String := "query")
    (required : Bool := false) (example_value : String := "") :
    List ParameterRow :=
  if params.any (fun p => p.endpoint_path = endpoint_path ∧ p.name = name ∧
      p.location = location) then
    params.map (fun p =>
      if p.endpoint_path = endpoint_path ∧ p.name = name ∧ p.location = location then
        { p with
          param_type := param_type,
          required := if required then true else p.required,
          example_value :=
            if example_value ≠ "" then example_value else p.example_value }
      else p)
  else
    params ++ [{
      endpoint_path := endpoint_path,
      name := name,
      param_type := param_type,
      location := location,
      required := required,
      example_value := example_value }]

/-- One row of the `probe_runs` table. The finish timestamp comes from the
wall clock; the claims only constrain whether it is set, so it is
modelled as a flag. -/
structure ProbeRunRow where
  status : String
  finished_at_set : Bool
  total_requests : Nat
  endpoints_found : Nat
  progress : List String
deriving Repr

/-- Row state produced by `Database.create_probe_run` (table defaults:
status `running`, finish timestamp unset, zero counters). -/
def create_probe_run : ProbeRunRow :=
  { status := "running", finished_at_set := false, total_requests := 0,
    endpoints_found := 0, progress := [] }

/-- The statuses the source treats as terminal when deciding to stamp
`finished_at`. -/
def terminalStatuses : List String := ["completed", "stopped", "error"]

/-- Arguments of `Database.update_probe_run` (each `None` leaves the
column untouched). -/
structure RunUpdate where
  status : Option String := none
  total_requests : Option Nat := none
  endpoints_found : Option Nat := none
  progress : Option (List String) := none
deriving Repr

/-- Embedding of `Database.update_probe_run`: a supplied status is written
unconditionally, and whenever it is one of `completed`/`stopped`/`error`
the finish timestamp is (re)stamped; the other columns are overwritten
exactly when supplied. Nothing ever clears `finished_at`. -/
def update_probe_run (row : ProbeRunRow) (u : RunUpdate) : ProbeRunRow :=
  let row := match u.status with
    | none => row
    | some s =>
      { row with
        status := s,
        finished_at_set := if terminalStatuses.contains s then true
                           else row.finished_at_set }
  let row := match u.total_requests with
    | none => row
    | some n => { row with total_requests := n }
  let row := match u.endpoints_found with
    | none => row
    | some n => { row with endpoints_found := n }
  match u.progress with
  | none => row
  | some p => { row with progress := p }

/-! ## `core/http_client.py`

The transport (`urllib`) is external: the run is parameterized by an
oracle assigning to every request index the response record the worker
builds for it. `request_count` is incremented at the moment the outbound
call begins, so the n-th request of a run observes `oracle n` when the
counter stood at `n`. Rate limiting only sleeps and is not otherwise
observable; it is not modelled. -/

/-- The response record `HttpResponse` the worker returns (the `url` field
is echoed from the argument and never read by the claims' code paths). -/
structure Resp where
  method : String
  status_code : Int
  headers : List (String × String)
  body : String
  content_type : String
  elapsed_ms : Nat
  error : String
deriving Repr

/-- Embedding of `HttpResponse.ok`. -/
def Resp.ok (r : Resp) : Bool :=
  200 ≤ r.status_code && r.status_code < 400

/-- One client request: the counter increments as the call begins and the
wire's answer is the oracle's entry for the old counter value. -/
def clientRequest (oracle : Nat → Resp) (count : Nat) : Resp × Nat :=
  (oracle count, count + 1)

/-! ## `discovery/method_tester.py` -/

/-- The safe method set of `method_tester.py`. -/
def SAFE_METHODS : List String := ["GET", "HEAD", "OPTIONS"]

/-- The full method set of `method_tester.py`. -/
def ALL_METHODS : List String :=
  ["GET", "HEAD", "OPTIONS", "POST", "PUT", "PATCH", "DELETE"]

/-- Result record of `test_methods`. -/
structure MethodInfo where
  methods : List String
  status_codes : List (String × Int)
  auth_required : Bool
  auth_type_hint : String
  allow_header : String
  content_types : List String
deriving Repr

/-- The auth-hint derivation of `test_methods` for a non-empty
`WWW-Authenticate` header value: substring matches (case-insensitive) for
`bearer`, `basic` and `api`, falling back to the first
whitespace-delimited token. (The source indexes `split()[0]`, which
presupposes the header has such a token; a whitespace-only header would
raise there, and is modelled as the empty hint.) -/
def methodTesterHint (www_auth : String) : String :=
  if strContains (pyLower www_auth) "bearer" then "bearer"
  else if strContains (pyLower www_auth) "basic" then "basic"
  else if strContains (pyLower www_auth) "api" then "api_key"
  else if www_auth ≠ "" then (pySplitWs www_auth).headD "" else ""

/-- Loop body state of `test_methods`. -/
structure MTState where
  supported : List String
  status_codes : List (String × Int)
  auth_required : Bool
  auth_type_hint : String
  allow_header : String
  content_types : List String
deriving Repr

/-- One iteration of the `for method in methods_to_test` loop of
`test_methods`: issue the request; on connection error (`status_code = 0`)
record nothing; otherwise record the status, union the `Allow` tokens on
an `OPTIONS` answer, union the method itself unless the status is
404/405/501, latch the auth profile on 401/403, and collect the media
type before the `;` of the `Content-Type`. -/
def testMethodsStep (st : MTState) (method : String) (resp : Resp) : MTState :=
  if resp.status_code = 0 then st
  else
    let st := { st with status_codes := st.status_codes ++ [(method, resp.status_code)] }
    let st :=
      if method = "OPTIONS" && assocHas resp.headers "Allow" then
        let allow := assocGetD resp.headers "Allow" ""
        let toks := (splitOnChar ',' (allow.data.filter (fun c => c ≠ ' '))).map
          (fun t => pyUpper (pyStrip (String.mk t)))
        { st with
          allow_header := allow,
          supported := toks.foldl
            (fun acc m => if m ≠ "" && !acc.contains m then acc ++ [m] else acc)
            st.supported }
      else st
    let st :=
      if !([404, 405, 501].contains resp.status_code) then
        if !st.supported.contains method then
          { st with supported := st.supported ++ [method] }
        else st
      else st
    let st :=
      if resp.status_code = 401 || resp.status_code = 403 then
        let www := assocGetD resp.headers "WWW-Authenticate" ""
        { st with
          auth_required := true,
          auth_type_hint := if www ≠ "" then methodTesterHint www else st.auth_type_hint }
      else st
    if resp.content_type ≠ "" then
      let ct := pyStrip (headBefore ';' resp.content_type)
      if ct ≠ "" && !st.content_types.contains ct then
        { st with content_types := st.content_types ++ [ct] }
      else st
    else st

/-- The request loop of `test_methods` threaded through the client
counter. -/
def testMethodsLoop (oracle : Nat → Resp) :
    List String → MTState → Nat → MTState × Nat
  | [], st, count => (st, count)
  | m :: rest, st, count =>
    let (resp, count) := clientRequest oracle count
    testMethodsLoop oracle rest (testMethodsStep st m resp) count

/-- Embedding of `test_methods`: runs the loop over the safe or full
method set and packages the result (the two sorted copies preserve
membership; `content_types` is a set in the source, modelled as its
deduplicated insertion order). -/
def test_methods (oracle : Nat → Resp) (count : Nat) (skip_destructive : Bool) :
    MethodInfo × Nat :=
  let methods_to_test := if skip_destructive then SAFE_METHODS else ALL_METHODS
  let st0 : MTState :=
    { supported := [], status_codes := [], auth_required := false,
      auth_type_hint := "", allow_header := "", content_types := [] }
  let (st, count) := testMethodsLoop oracle methods_to_test st0 count
  ({ methods := pySorted st.supported,
     status_codes := st.status_codes,
     auth_required := st.auth_required,
     auth_type_hint := st.auth_type_hint,
     allow_header := st.allow_header,
     content_types := pySorted st.content_types }, count)

/-! ## `discovery/openapi_detect.py` -/

/-- The fixed ordered specification path list `SWAGGER_PATHS`. -/
def SWAGGER_PATHS : List String :=
  ["/swagger.json", "/openapi.json", "/api-docs",
   "/api-docs.json", "/swagger.yaml", "/openapi.yaml",
   "/docs", "/swagger", "/swagger-ui",
   "/api/swagger.json", "/api/openapi.json",
   "/v1/swagger.json", "/v2/swagger.json",
   "/.well-known/openapi"]

/-- Embedding of `_try_parse_spec`: the body must parse (the `jparse`
parameter stands for `json.loads`) to a mapping carrying at least one of
the keys `paths`, `swagger`, `openapi`. -/
def try_parse_spec (jparse : String → Option Json) (body : String) : Option Json :=
  match jparse body with
  | some (.obj kvs) =>
    if jsonHasKey kvs "paths" || jsonHasKey kvs "swagger" || jsonHasKey kvs "openapi" then
      some (.obj kvs)
    else none
  | _ => none

/-- The path loop of `detect_openapi`: robots-disallowed paths are skipped
without a request; every other path is fetched, and the first response
that is successful, has a non-empty body and parses as a spec is
returned. -/
def detectOpenapiLoop (jparse : String → Option Json) (oracle : Nat → Resp)
    (base_url : String) (allowed : String → Bool) :
    List String → Nat → Option (String × Json) × Nat
  | [], count => (none, count)
  | p :: rest, count =>
    if !allowed p then detectOpenapiLoop jparse oracle base_url allowed rest count
    else
      let (resp, count) := clientRequest oracle count
      if resp.ok && resp.body ≠ "" then
        match try_parse_spec jparse resp.body with
        | some spec => (some (base_url ++ p, spec), count)
        | none => detectOpenapiLoop jparse oracle base_url allowed rest count
      else detectOpenapiLoop jparse oracle base_url allowed rest count

/-- Embedding of `detect_openapi`; `robots = none` models a `None`
robots checker (every path fetched). -/
def detect_openapi (jparse : String → Option Json) (oracle : Nat → Resp)
    (base_url : String) (robots : Option (String → Bool)) (count : Nat) :
    Option (String × Json) × Nat :=
  let base := rstripSlash base_url
  let allowed := fun p => match robots with
    | some f => f p
    | none => true
  detectOpenapiLoop jparse oracle base allowed SWAGGER_PATHS count

/-- One extracted parameter record of `extract_endpoints_from_spec`. -/
structure SpecParam where
  name : String
  location : String
  required : Bool
  param_type : String
deriving Repr, DecidableEq

/-- One extracted endpoint record of `extract_endpoints_from_spec`. -/
structure SpecEndpoint where
  path : String
  methods : List String
  description : String
  parameters : List SpecParam
deriving Repr

/-- Reading one `parameters` entry of a spec: only mapping entries are
kept (`isinstance` guard); `in` defaults to `query`, `required` to the
truthiness of the stored value, and the type to `type`, then
`schema.type`, then `string`. -/
def readSpecParam (param : Json) : Option SpecParam :=
  match param with
  | .obj kvs =>
    some { name := jsonGetStrD kvs "name" "",
           location := jsonGetStrD kvs "in" "query",
           required := (jsonLookup kvs "required").elim false jsonTruthy,
           param_type :=
             match jsonLookup kvs "type" with
             | some (.str t) => t
             | some _ => ""
             | none =>
               match jsonLookup kvs "schema" with
               | some (.obj skvs) => jsonGetStrD skvs "type" "string"
               | _ => "string" }
  | _ => none

/-- Embedding of `_dedupe_params`: keep the first occurrence of every
`(name, location)` pair. -/
def dedupe_params (params : List SpecParam) : List SpecParam :=
  (params.foldl
    (fun (acc : List (String × String) × List SpecParam) p =>
      if acc.1.contains (p.name, p.location) then acc
      else ((p.name, p.location) :: acc.1, acc.2 ++ [p]))
    ([], [])).2

/-- The per-method scan of one `paths` entry: collect the present methods
of the fixed tuple upper-cased, the first non-empty summary/description,
and the per-method parameters. (`op.get("summary", op.get("description",
""))` prefers the summary key whenever present.) -/
def scanMethods (methods_obj : List (String × Json)) :
    List String × String × List SpecParam :=
  ["get", "head", "post", "put", "patch", "delete", "options"].foldl
    (fun acc method =>
      match jsonLookup methods_obj method with
      | none => acc
      | some op =>
        let methods := acc.1 ++ [pyUpper method]
        match op with
        | .obj okvs =>
          let descr :=
            if acc.2.1 = "" then
              match jsonLookup okvs "summary" with
              | some (.str s) => s
              | some _ => ""
              | none => jsonGetStrD okvs "description" ""
            else acc.2.1
          let ps := acc.2.2 ++
            (((jsonLookup okvs "parameters").elim [] jsonAsList).filterMap readSpecParam)
          (methods, descr, ps)
        | _ => (methods, acc.2.1, acc.2.2))
    ([], "", [])

/-- Embedding of `extract_endpoints_from_spec`: walk the `paths` mapping
(entries whose value is not a mapping are skipped), prepend `basePath`
when present, and keep entries with at least one recognized method. The
top-level `parameters` of an entry apply to all methods and are appended
after the per-method ones before deduplication. -/
def extract_endpoints_from_spec (spec : List (String × Json)) : List SpecEndpoint :=
  let paths := match jsonLookup spec "paths" with
    | some (.obj pkvs) => pkvs
    | _ => []
  let base_path := jsonGetStrD spec "basePath" ""
  paths.foldl
    (fun acc entry =>
      match entry.2 with
      | .obj mkvs =>
        let full_path := if base_path ≠ "" then base_path ++ entry.1 else entry.1
        let (methods, description, params) := scanMethods mkvs
        let params := params ++
          (((jsonLookup mkvs "parameters").elim [] jsonAsList).filterMap readSpecParam)
        if !methods.isEmpty then
          acc ++ [{ path := full_path,
                    methods := methods,
                    description := description,
                    parameters := dedupe_params params }]
        else acc
      | _ => acc)
    []

/-! ## `discovery/wordlist.py` and `discovery/pattern.py`

Loading wordlist files is file I/O; the loaded, comment-stripped,
first-seen-deduplicated path list is a parameter. The probing loop of
`probe_wordlist` and the one of `probe_patterns` are line-for-line
identical in the sources and are embedded once. -/

/-- The shared probing loop: for each path — break when `max_requests` is
truthy (non-zero) and the counter has reached it; skip known paths and
robots-denied paths; otherwise `HEAD`, retrying with `GET` on a 405; count
a find when the status is positive and not 404, appending it to the
results and the known set and (in the source) firing the print-only
callback. Returns the find list, the extended known set and the counter. -/
def probePathsLoop (oracle : Nat → Resp) (max_requests : Nat)
    (allowed : String → Bool) :
    List String → List String → Nat → List (String × Resp) × List String × Nat
  | [], known, count => ([], known, count)
  | p :: rest, known, count =>
    if max_requests ≠ 0 && count ≥ max_requests then ([], known, count)
    else if known.contains p then probePathsLoop oracle max_requests allowed rest known count
    else if !allowed p then probePathsLoop oracle max_requests allowed rest known count
    else
      let (r1, count) := clientRequest oracle count
      let (resp, count) :=
        if r1.status_code = 405 then clientRequest oracle count else (r1, count)
      if resp.status_code > 0 && resp.status_code ≠ 404 then
        let (res, known', count') :=
          probePathsLoop oracle max_requests allowed rest (known ++ [p]) count
        ((p, resp) :: res, known', count')
      else probePathsLoop oracle max_requests allowed rest known count

/-- Embedding of `probe_wordlist`: the deduplicated union of the loaded
wordlists (a file-system product) enters as `loaded_paths`. -/
def probe_wordlist (oracle : Nat → Resp) (loaded_paths : List String)
    (robots : Option (String → Bool)) (known : List String)
    (max_requests : Nat) (count : Nat) :
    List (String × Resp) × List String × Nat :=
  let allowed := fun p => match robots with
    | some f => f p
    | none => true
  probePathsLoop oracle max_requests allowed loaded_paths known count

/-- Embedding of `generate_patterns`: the five template families over the
configured versions and resources, deduplicated and sorted (the source
builds a set and sorts it). -/
def generate_patterns (versions : List Nat) (resources : List String) :
    List String :=
  let fam1 := versions.flatMap (fun v => resources.map
    (fun r => "/api/v" ++ toString v ++ "/" ++ r))
  let fam2 := versions.flatMap (fun v => resources.map
    (fun r => "/v" ++ toString v ++ "/" ++ r))
  let fam3 := resources.map (fun r => "/" ++ r)
  let fam4 := resources.map (fun r => "/" ++ r ++ "/1")
  let fam5 := resources.map (fun r => "/api/" ++ r)
  pySorted (dedupFirst (fam1 ++ fam2 ++ fam3 ++ fam4 ++ fam5))

/-- Embedding of `probe_patterns`: the same loop over the generated
paths. -/
def probe_patterns (oracle : Nat → Resp) (versions : List Nat)
    (resources : List String) (robots : Option (String → Bool))
    (known : List String) (max_requests : Nat) (count : Nat) :
    List (String × Resp) × List String × Nat :=
  let allowed := fun p => match robots with
    | some f => f p
    | none => true
  probePathsLoop oracle max_requests allowed (generate_patterns versions resources)
    known count

/-! ## `discovery/response_driven.py` -/

/-- The query/fragment/trailing-slash steps of `_normalize_link`: cut at
the first `?` and the first `#` (Python `split(c)[0]`), strip all
trailing slashes except for the root itself, and yield `none` for the
empty result. -/
def normalizeTail (l0 : List Char) : Option (List Char) :=
  let l := l0.takeWhile (fun c => c ≠ '?')
  let l := l.takeWhile (fun c => c ≠ '#')
  let l := if l ≠ ['/'] && (l.getLast? = some '/' : Bool) then rstripSlashChars l
           else l
  if l ≠ [] then some l else none

/-- Embedding of `_normalize_link` on character lists: strip a matching
base-URL prefix, ensure a leading `/`, then the tail steps above. -/
def normalizeLinkChars (link base_url : List Char) : Option (List Char) :=
  let l := if base_url.isPrefixOf link then link.drop base_url.length else link
  let l := if ['/'].isPrefixOf l then l else '/' :: l
  normalizeTail l

/-- Embedding of `_normalize_link` on strings. -/
def normalize_link (link base_url : String) : Option String :=
  (normalizeLinkChars link.data base_url.data).map String.mk

/-- Collects the candidate set of one link-following round: for every
stored response row of the service, parse the body sample, extract its
links, normalize them and keep those that are new; the result is a set,
modelled as its first-occurrence deduplication. -/
def collectRoundLinks (jparse : String → Option Json) (base_url : String)
    (rows : List ResponseRow) (known : List String) : List String :=
  dedupFirst (rows.flatMap (fun row =>
    if row.body_sample = "" then []
    else match jparse row.body_sample with
      | none => []
      | some data =>
        (extract_links_from_json data base_url).filterMap (fun link =>
          match normalize_link link base_url with
          | some path => if !known.contains path then some path else none
          | none => none)))

/-- The testing loop of one link-following round: robots-filter the sorted
candidates, `GET` each survivor, and record finds exactly as the wordlist
loop does (no budget check exists in this phase). -/
def followLinksLoop (oracle : Nat → Resp) (allowed : String → Bool) :
    List String → List String → Nat → List (String × Resp) × List String × Nat
  | [], known, count => ([], known, count)
  | p :: rest, known, count =>
    if !allowed p then followLinksLoop oracle allowed rest known count
    else
      let (resp, count) := clientRequest oracle count
      if resp.status_code > 0 && resp.status_code ≠ 404 then
        let (res, known', count') :=
          followLinksLoop oracle allowed rest (known ++ [p]) count
        ((p, resp) :: res, known', count')
      else followLinksLoop oracle allowed rest known count

/-- The round iteration of `discover_from_responses`: up to `max_depth`
rounds, stopping early when a round yields no new candidates or no new
finds. `getRows` reads the stored response rows of the service from the
database state threaded by the orchestrator. -/
def discoverRounds (jparse : String → Option Json) (oracle : Nat → Resp)
    (base_url : String) (allowed : String → Bool)
    (rows : List ResponseRow) :
    Nat → List String → Nat → List (String × Resp) × List String × Nat
  | 0, known, count => ([], known, count)
  | depth + 1, known, count =>
    let new_links := collectRoundLinks jparse base_url rows known
    if new_links.isEmpty then ([], known, count)
    else
      let (round_results, known, count) :=
        followLinksLoop oracle allowed (pySorted new_links) known count
      if round_results.isEmpty then (round_results, known, count)
      else
        let (later, known, count) := discoverRounds jparse oracle base_url
          allowed rows depth known count
        (round_results ++ later, known, count)

/-- Embedding of `discover_from_responses`. The response rows visible to
the rounds are those present in the store when the phase starts: the
phase itself only appends finds through the orchestrator after it
returns, so the stored rows do not change during the rounds. -/
def discover_from_responses (jparse : String → Option Json)
    (oracle : Nat → Resp) (base_url : String)
    (rows : List ResponseRow) (robots : Option (String → Bool))
    (known : List String) (max_depth : Nat) (count : Nat) :
    List (String × Resp) × List String × Nat :=
  let base := rstripSlash base_url
  let allowed := fun p => match robots with
    | some f => f p
    | none => true
  discoverRounds jparse oracle base allowed rows max_depth known count

/-! ## `discovery/orchestrator.py` -/

/-- The configuration values `probe` reads (defaults as the source's
`config.get` calls supply them). Wordlist loading is file I/O and enters
as the loaded path list. -/
structure Config where
  max_requests : Nat := 500
  delay_ms : Nat := 500
  skip_destructive : Bool := true
  strategies : List String := ["openapi", "wordlist", "pattern", "response_driven"]
  max_depth : Nat := 2
  pattern_versions : List Nat := [1, 2, 3]
  pattern_resources : List String := ["users", "posts", "comments", "items", "products"]
  loaded_wordlist_paths : List String := []
deriving Repr

/-- What the robots layer reports to the orchestrator: `load()`'s result,
the robots-declared crawl delay (already in milliseconds; `if crawl_delay:`
is a truthiness test, so a zero delay does not escalate), and the
`is_allowed` predicate. The robots fetch uses its own `urllib` call and
does not touch the worker's counter. -/
structure RobotsModel where
  load_ok : Bool
  raw : String
  crawl_delay_ms : Option Nat
  allowed : String → Bool

/-- Embedding of `ProbeOrchestrator._check_limits`: the budget is reached
or the `STOP` sentinel file exists (`stop` abstracts the file system). -/
def check_limits (count max_requests : Nat) (stop : Bool) : Bool :=
  count ≥ max_requests || stop

/-- Embedding of `ProbeOrchestrator._derive_service_name` after the
external `urlparse` produced the host name: the second-to-last dotted
label, or the whole host when it has fewer than two labels. -/
def derive_service_name (hostname : Option String) : String :=
  let host := match hostname with
    | some h => if h ≠ "" then h else "unknown"
    | none => "unknown"
  let parts := pySplitChar '.' host
  if parts.length ≥ 2 then parts.getD (parts.length - 2) "" else host

/-- The database state of one service that `probe` threads: the service
row, the endpoint rows, the appended response rows and the parameter
rows (the run row is kept separately). -/
structure SvcDb where
  service : Option ServiceRow
  endpoints : List EndpointRow
  responses : List ResponseRow
  parameters : List ParameterRow

/-- Embedding of `Database.get_endpoint_paths` (the set of known paths of
the service). -/
def get_endpoint_paths (db : SvcDb) : List String :=
  db.endpoints.map (fun e => e.path)

/-- Embedding of `Database.get_endpoints` (`ORDER BY path`). -/
def get_endpoints (db : SvcDb) : List EndpointRow :=
  db.endpoints.foldr
    (fun e acc => acc.orderedInsert (fun a b => strLe a.path b.path = true) e) []

/-- Embedding of `Database.get_responses` for one endpoint
(`ORDER BY method`), read per endpoint in `ORDER BY path` order by the
link-following phase. -/
def get_responses (db : SvcDb) (path : String) : List ResponseRow :=
  (db.responses.filter (fun r => r.endpoint_path = path)).foldr
    (fun r acc => acc.orderedInsert (fun a b => strLe a.method b.method = true) r) []

/-- The response rows the link-following phase reads: for every endpoint
in path order, its rows in method order. -/
def allResponseRows (db : SvcDb) : List ResponseRow :=
  (get_endpoints db).flatMap (fun e => get_responses db e.path)

/-- The auth-hint derivation of `ProbeOrchestrator._process_results`:
only the substrings `bearer` and `basic` are matched (case-insensitive);
there is no `api_key` match and no first-token fallback here. -/
def processHint (www_auth : String) : String :=
  if strContains (pyLower www_auth) "bearer" then "bearer"
  else if strContains (pyLower www_auth) "basic" then "basic"
  else ""

/-- Embedding of `ProbeOrchestrator._process_results`: each find is
upserted with its observed method, status code and media type (the part
of `Content-Type` before `;`, when non-empty); `auth_required` is set
exactly when the status is 401 or 403, in which case the hint is
`processHint` of `WWW-Authenticate` and empty otherwise; and for a
successful response with a non-empty body a response row with the
inferred schema and the doubly truncated sample is appended. -/
def process_results (jparse : String → Option Json) (db : SvcDb)
    (results : List (String × Resp)) (discovered_by : String) : SvcDb :=
  results.foldl
    (fun db pr =>
      let path := pr.1
      let resp := pr.2
      let content_types :=
        if resp.content_type ≠ "" then
          let ct := pyStrip (headBefore ';' resp.content_type)
          if ct ≠ "" then [ct] else []
        else []
      let auth_required := resp.status_code = 401 || resp.status_code = 403
      let auth_hint :=
        if auth_required then
          processHint (assocGetD resp.headers "WWW-Authenticate" "")
        else ""
      let u : EndpointUpsert :=
        { path := path,
          methods := if resp.method ≠ "" then [resp.method] else [],
          status_codes := [resp.status_code],
          auth_required := auth_required,
          auth_type_hint := auth_hint,
          content_types := content_types,
          discovered_by := discovered_by }
      let db := { db with endpoints := upsert_endpoint db.endpoints u }
      if resp.body ≠ "" && resp.ok then
        let schema := extract_schema_from_body jparse resp.body
        let responses := add_response db.responses path
          (if resp.method ≠ "" then resp.method else "GET") resp.status_code
          resp.headers schema (pyTake resp.body 2048) resp.content_type
          resp.elapsed_ms
        { db with responses := responses }
      else db)
    db

/-- Model of `set.add` on the known-path set. -/
def addKnown (known : List String) (p : String) : List String :=
  if known.contains p then known else known ++ [p]

/-- The ingestion of phase 1 (`probe`, spec found): every extracted
spec endpoint is upserted with its methods under `discovered_by =
"openapi"` and added to the known set, and its parameters are upserted
with name, type, location and required flag. -/
def applySpecEndpoints (db : SvcDb) (known : List String)
    (eps : List SpecEndpoint) : SvcDb × List String :=
  eps.foldl
    (fun acc ep =>
      let u : EndpointUpsert :=
        { path := ep.path, methods := ep.methods, discovered_by := "openapi" }
      let db := { acc.1 with endpoints := upsert_endpoint acc.1.endpoints u }
      let db := { db with
        parameters := ep.parameters.foldl
          (fun ps p => upsert_parameter ps ep.path p.name p.param_type
            p.location p.required)
          db.parameters }
      (db, addKnown acc.2 ep.path))
    (db, known)

/-- The service metadata written after a successful spec detection:
`openapi_spec_url` plus, when the spec has an `info` mapping, title /
version / description. -/
def specMetadata (spec_url : String) (skvs : List (String × Json)) :
    List (String × Json) :=
  let meta := [("openapi_spec_url", Json.str spec_url)]
  match jsonLookup skvs "info" with
  | some (.obj ikvs) =>
    meta ++ [("api_title", Json.str (jsonGetStrD ikvs "title" "")),
             ("api_version", Json.str (jsonGetStrD ikvs "version" "")),
             ("api_description", Json.str (jsonGetStrD ikvs "description" ""))]
  | _ => meta

/-- Phase 4 of `probe`: for every endpoint known at the phase start (path
order), first the budget/sentinel check, then `test_methods` — a batch of
3 resp. 7 requests with no intermediate check — and the merge of its
findings into the endpoint row. -/
def methodPhaseLoop (oracle : Nat → Resp) (skip_destructive : Bool)
    (max_requests : Nat) (stop : Bool) :
    List EndpointRow → SvcDb → Nat → SvcDb × Nat
  | [], db, count => (db, count)
  | ep :: rest, db, count =>
    if check_limits count max_requests stop then (db, count)
    else
      let (info, count) := test_methods oracle count skip_destructive
      let u : EndpointUpsert :=
        { path := ep.path,
          methods := info.methods,
          status_codes := info.status_codes.map (fun sc => sc.2),
          auth_required := info.auth_required,
          auth_type_hint := info.auth_type_hint,
          content_types := info.content_types }
      let db := { db with endpoints := upsert_endpoint db.endpoints u }
      methodPhaseLoop oracle skip_destructive max_requests stop rest db count

/-- Phase 5 of `probe`: per endpoint, after the budget/sentinel check, a
single `GET` for endpoints whose method set contains `GET`; successful
non-empty bodies with a parsable schema append a response row, 400/422
bodies feed the error-message parameter extraction (whose regular
expressions are the external `extractParams` engine). -/
def schemaPhaseLoop (jparse : String → Option Json)
    (extractParams : String → List (String × Bool)) (oracle : Nat → Resp)
    (max_requests : Nat) (stop : Bool) :
    List EndpointRow → SvcDb → Nat → SvcDb × Nat
  | [], db, count => (db, count)
  | ep :: rest, db, count =>
    if check_limits count max_requests stop then (db, count)
    else if !ep.methods.contains "GET" then
      schemaPhaseLoop jparse extractParams oracle max_requests stop rest db count
    else
      let (resp, count) := clientRequest oracle count
      if resp.ok && resp.body ≠ "" then
        match extract_schema_from_body jparse resp.body with
        | some schema =>
          let responses := add_response db.responses ep.path "GET"
            resp.status_code resp.headers (some schema) (pyTake resp.body 2048)
            resp.content_type resp.elapsed_ms
          schemaPhaseLoop jparse extractParams oracle max_requests stop rest
            { db with responses := responses } count
        | none =>
          schemaPhaseLoop jparse extractParams oracle max_requests stop rest db count
      else if (resp.status_code = 400 || resp.status_code = 422) && resp.body ≠ "" then
        let parameters := (extractParams resp.body).foldl
          (fun ps p => upsert_parameter ps ep.path p.1 "string" "query" p.2)
          db.parameters
        schemaPhaseLoop jparse extractParams oracle max_requests stop rest
          { db with parameters := parameters } count
      else
        schemaPhaseLoop jparse extractParams oracle max_requests stop rest db count

/-- The summary dictionary `probe` returns on success. -/
structure ProbeSummary where
  service : String
  base_url : String
  endpoints_found : Nat
  total_requests : Nat
  status : String
deriving Repr

/-- Everything observable after a `probe` call: the summary or the
phase-0 error, the service's database state, the run row, the worker's
request counter and its (possibly robots-escalated) delay. -/
structure ProbeOutcome where
  summary : Option ProbeSummary
  error : Option String
  db : SvcDb
  run : ProbeRunRow
  count : Nat
  delay_ms : Nat

/-- Embedding of `ProbeOrchestrator.probe`. External effects enter as
parameters: `jparse` for `json.loads`, `extractParams` for the regex scan
of `extract_params_from_error`, `oracle` for the transport, `hostname`
for `urlparse(url).hostname`, `robots_model` for the robots layer,
`stop` for the existence of the `STOP` sentinel file, and `db0` for the
store's prior content under the derived service name. The phase sequence,
guards, counter threading and store writes follow the source line by
line; prints and the print-only find callback are dropped, as is the
`last_probed` timestamp touch. -/
def probe (jparse : String → Option Json)
    (extractParams : String → List (String × Bool)) (oracle : Nat → Resp)
    (cfg : Config) (respect_robots_txt : Bool) (robots_model : RobotsModel)
    (stop : Bool) (url : String) (hostname : Option String)
    (depth : Option Nat) (db0 : SvcDb) : ProbeOutcome :=
  let cfg := match depth with
    | some d => { cfg with max_depth := d }
    | none => cfg
  let base_url := rstripSlash url
  let service_name := derive_service_name hostname
  let max_requests := cfg.max_requests
  let skip_destructive := cfg.skip_destructive
  let db := { db0 with
    service := some (upsert_service db0.service { base_url := base_url }) }
  let run := create_probe_run
  let known := get_endpoint_paths db
  let robots : Option RobotsModel :=
    if respect_robots_txt then some robots_model else none
  let db := match robots with
    | some rm =>
      if rm.load_ok then
        { db with service := some (upsert_service db.service
            { base_url := base_url, robots_txt := rm.raw }) }
      else db
    | none => db
  let delay_ms := match robots with
    | some rm =>
      if rm.load_ok then
        match rm.crawl_delay_ms with
        | some d => if d ≠ 0 then max cfg.delay_ms d else cfg.delay_ms
        | none => cfg.delay_ms
      else cfg.delay_ms
    | none => cfg.delay_ms
  let allowed : Option (String → Bool) := robots.map (fun rm => rm.allowed)
  let (base_resp, count) := clientRequest oracle 0
  if base_resp.status_code > 0 then
    let server := assocGetD base_resp.headers "Server" ""
    let db :=
      if server ≠ "" then
        { db with service := some (upsert_service db.service
            { base_url := base_url, server_header := server }) }
      else db
    let (db, known, count) :=
      if cfg.strategies.contains "openapi" &&
          !check_limits count max_requests stop then
        let (found, count) := detect_openapi jparse oracle base_url allowed count
        match found with
        | some (spec_url, spec) =>
          let skvs := match spec with
            | .obj kvs => kvs
            | _ => []
          let (db, known) := applySpecEndpoints db known
            (extract_endpoints_from_spec skvs)
          let db := { db with service := some (upsert_service db.service
            { base_url := base_url, metadata := specMetadata spec_url skvs }) }
          (db, known, count)
        | none => (db, known, count)
      else (db, known, count)
    let (db, known, count) :=
      if cfg.strategies.contains "wordlist" &&
          !check_limits count max_requests stop then
        let (results, known', count) := probe_wordlist oracle
          cfg.loaded_wordlist_paths allowed known max_requests count
        -- `known = known_paths or set()` in the source: additions escape to
        -- the caller only when the passed-in set was non-empty (a falsy
        -- empty set is replaced by a fresh one inside the phase).
        (process_results jparse db results "wordlist",
         if known.isEmpty then known else known', count)
      else (db, known, count)
    let (db, known, count) :=
      if cfg.strategies.contains "pattern" &&
          !check_limits count max_requests stop then
        let (results, known', count) := probe_patterns oracle
          cfg.pattern_versions cfg.pattern_resources allowed known
          max_requests count
        (process_results jparse db results "pattern",
         if known.isEmpty then known else known', count)
      else (db, known, count)
    let (db, count) :=
      if !check_limits count max_requests stop then
        methodPhaseLoop oracle skip_destructive max_requests stop
          (get_endpoints db) db count
      else (db, count)
    let (db, count) :=
      if !check_limits count max_requests stop then
        schemaPhaseLoop jparse extractParams oracle max_requests stop
          (get_endpoints db) db count
      else (db, count)
    let (db, _known, count) :=
      if cfg.strategies.contains "response_driven" &&
          !check_limits count max_requests stop then
        let (results, known, count) := discover_from_responses jparse oracle
          base_url (allResponseRows db) allowed known cfg.max_depth count
        (process_results jparse db results "response_driven", known, count)
      else (db, known, count)
    let total_requests := count
    let final_ep_count := (get_endpoints db).length
    let run := update_probe_run run
      { status := some "completed",
        total_requests := some total_requests,
        endpoints_found := some final_ep_count,
        progress := some cfg.strategies }
    { summary := some
        { service := service_name, base_url := base_url,
          endpoints_found := final_ep_count,
          total_requests := total_requests, status := "completed" },
      error := none, db := db, run := run, count := count,
      delay_ms := delay_ms }
  else
    let run := update_probe_run run { status := some "error" }
    { summary := none, error := some base_resp.error, db := db, run := run,
      count := count, delay_ms := delay_ms }

/-! ## Measures and claim-side notions used by the theorems -/

/-- UTF-8 byte length of a string (the spec's `len(sample)` measured in
bytes). -/
def utf8Len (s : String) : Nat :=
  (s.data.map Char.utf8Size).sum

/-- The row of a given path in an endpoint table (`SELECT ... WHERE
service_id = ? AND path = ?`). -/
def findRow (rows : List EndpointRow) (p : String) : Option EndpointRow :=
  rows.find? (fun e => e.path = p)

/-! ## C10 — service upsert repoints the base URL -/

/-- C10: the service upsert always overwrites the stored base_url with the
newly supplied value, while description, server header, robots text and
metadata are preserved whenever the incoming value is empty resp. the
default empty mapping — so upserting an existing service name with a
different base URL silently repoints the service. -/
theorem C10_service_upsert_repoints (old : ServiceRow) (u : ServiceUpsert) :
    (upsert_service (some old) u).base_url = u.base_url ∧
    (u.description = "" → (upsert_service (some old) u).description = old.description) ∧
    (u.server_header = "" →
      (upsert_service (some old) u).server_header = old.server_header) ∧
    (u.robots_txt = "" → (upsert_service (some old) u).robots_txt = old.robots_txt) ∧
    (u.metadata = [] → (upsert_service (some old) u).metadata = old.metadata) := by
  refine ⟨rfl, ?_, ?_, ?_, ?_⟩ <;> intro h <;> simp [upsert_service, h]

/-- A stored service row used to witness C10. -/
def c10OldRow : ServiceRow :=
  { base_url := "http://a.test",
    description := "d",
    server_header := "s",
    robots_txt := "r",
    metadata := [] }

/-- A repointing upsert used to witness C10. -/
def c10Upd : ServiceUpsert :=
  { base_url := "http://b.test" }

/-- Witness for C10 at a concrete repointing upsert. -/
theorem C10_service_upsert_repoints_witness :
    (upsert_service (some c10OldRow) c10Upd).base_url = "http://b.test" ∧
    (upsert_service (some c10OldRow) c10Upd).description = "d" := by
  have h := C10_service_upsert_repoints c10OldRow c10Upd
  exact ⟨h.1, h.2.1 rfl⟩

/-! ## C4 — response append truncation -/

/-- C4 counterexample: a body of 2049 two-byte characters is truncated to
2048 characters, i.e. 4096 UTF-8 bytes — more than the 2048 bytes the
claim allows for every stored sample. -/
theorem C4_sample_exceeds_2048_bytes :
    (add_response [] "/a" "GET" 200 [] none
        (String.mk (List.replicate 2049 'ä')) "" 0).map
      (fun r => utf8Len r.body_sample) = [4096] ∧ 2048 < 4096 := by
  have hlen : (String.mk (List.replicate 2049 'ä')).length = 2049 := by
    show (List.replicate 2049 'ä').length = 2049
    rw [List.length_replicate]
  have htake : pyTake (String.mk (List.replicate 2049 'ä')) 2048 =
      String.mk (List.replicate 2048 'ä') := by
    show String.mk ((List.replicate 2049 'ä').take 2048) = _
    rw [List.take_replicate]
    norm_num
  have hsz : 'ä'.utf8Size = 2 := by decide
  have hbytes : utf8Len (String.mk (List.replicate 2048 'ä')) = 4096 := by
    show ((List.replicate 2048 'ä').map Char.utf8Size).sum = 4096
    rw [List.map_replicate, hsz, List.sum_replicate, smul_eq_mul]
  refine ⟨?_, by norm_num⟩
  simp only [add_response, hlen]
  norm_num
  rw [htake, hbytes]

/-- C4 amended: the persisted body sample is the input truncated to at
most 2048 characters (code points) — `body_sample[:2048]` slices
characters, so the character count is bounded by 2048 while the byte
count can reach 8192 — and the row is appended unconditionally, never
deduplicated. -/
theorem C4_truncation_in_characters (rows : List ResponseRow) (p m : String)
    (sc : Int) (h : List (String × String)) (sch : Option Json)
    (body ct : String) (el : Nat) :
    add_response rows p m sc h sch body ct el =
      rows ++ [{ endpoint_path := p, method := m, status_code := sc,
                 headers := h, body_schema := sch,
                 body_sample := pyTake body 2048, content_type := ct,
                 elapsed_ms := el }] ∧
    (pyTake body 2048).length ≤ 2048 := by
  constructor
  · by_cases hb : body.length > 2048
    · simp [add_response, hb]
    · have hle : body.data.length ≤ 2048 := Nat.le_of_not_lt hb
      have : pyTake body 2048 = body := by
        show String.mk (body.data.take 2048) = body
        rw [List.take_of_length_le hle]
      simp [add_response, hb, this]
  · have : (pyTake body 2048).length = min 2048 body.data.length := by
      show (body.data.take 2048).length = min 2048 body.data.length
      rw [List.length_take]
    omega

/-! ## C7 — probe-run status transitions -/

/-- The invariant the claim asserts: the finish timestamp is set iff the
status is terminal. -/
def runFinishInv (r : ProbeRunRow) : Prop :=
  r.finished_at_set = true ↔ terminalStatuses.contains r.status = true

/-- C7 counterexample: `update_probe_run` overwrites a terminal status
with a later non-terminal one, and the finish timestamp — stamped by the
terminal write and never cleared — then accompanies a non-terminal
status. -/
theorem C7_terminal_status_overwritten :
    (update_probe_run (update_probe_run create_probe_run
        { status := some "completed" }) { status := some "running" }).status
      = "running" ∧
    (update_probe_run (update_probe_run create_probe_run
        { status := some "completed" }) { status := some "running" }).finished_at_set
      = true ∧
    terminalStatuses.contains "running" = false := by
  refine ⟨rfl, rfl, by decide⟩

/-- Preservation of the finish-timestamp invariant by one update whose
supplied status (if any) is terminal. -/
theorem update_probe_run_inv (r : ProbeRunRow) (u : RunUpdate)
    (hr : runFinishInv r)
    (hu : ∀ s, u.status = some s → terminalStatuses.contains s = true) :
    runFinishInv (update_probe_run r u) := by
  obtain ⟨st, tr, ef, pg⟩ := u
  cases st with
  | none =>
    cases tr <;> cases ef <;> cases pg <;>
      simpa [update_probe_run, runFinishInv] using hr
  | some s =>
    have hs : terminalStatuses.contains s = true := hu s rfl
    have hs' : s ∈ terminalStatuses := by simpa using hs
    cases tr <;> cases ef <;> cases pg <;>
      simp [update_probe_run, runFinishInv, hs, hs']

/-- C7 amended: the store does not make terminal statuses write-once —
`update_probe_run` overwrites the status unconditionally — but it stamps
the finish timestamp exactly when the written status is terminal and
never clears it; hence under the orchestrator's usage, in which every
status ever written is terminal (one `error` or `completed` write per
run), the finish timestamp is set iff the run's status is terminal. -/
theorem C7_finish_iff_terminal (updates : List RunUpdate)
    (hterm : ∀ u ∈ updates, ∀ s, u.status = some s →
      terminalStatuses.contains s = true) :
    (updates.foldl update_probe_run create_probe_run).finished_at_set = true ↔
      terminalStatuses.contains
        (updates.foldl update_probe_run create_probe_run).status = true := by
  have base : runFinishInv create_probe_run := by
    simp [runFinishInv, create_probe_run, terminalStatuses]
  have main : ∀ (us : List RunUpdate) (r : ProbeRunRow), runFinishInv r →
      (∀ u ∈ us, ∀ s, u.status = some s → terminalStatuses.contains s = true) →
      runFinishInv (us.foldl update_probe_run r) := by
    intro us
    induction us with
    | nil => intro r hr _; simpa using hr
    | cons u rest ih =>
      intro r hr hall
      simp only [List.foldl_cons]
      exact ih _ (update_probe_run_inv r u hr (hall u (by simp)))
        (fun v hv => hall v (by simp [hv]))
  exact main updates create_probe_run base hterm

/-- Witness for C7 at the orchestrator's single `completed` write. -/
theorem C7_finish_iff_terminal_witness :
    ([({ status := some "completed" } : RunUpdate)].foldl update_probe_run
        create_probe_run).finished_at_set = true ↔
      terminalStatuses.contains
        ([({ status := some "completed" } : RunUpdate)].foldl update_probe_run
          create_probe_run).status = true := by
  refine C7_finish_iff_terminal _ ?_
  intro u hu s hs
  rw [List.mem_singleton] at hu
  subst hu
  cases hs
  decide

/-! ## C3 — endpoint upsert merge semantics -/

/-- Membership of the JSON-set union: exactly the union of the members. -/
theorem mem_setUnion {α : Type} [BEq α] [LawfulBEq α] (old new : List α) (m : α) :
    m ∈ setUnion old new ↔ m ∈ old ∨ m ∈ new := by
  induction new generalizing old with
  | nil => simp [setUnion]
  | cons x rest ih =>
    show m ∈ setUnion (if old.contains x then old else old ++ [x]) rest ↔ _
    by_cases hx : x ∈ old
    · rw [if_pos (List.elem_iff.2 hx), ih]
      constructor
      · rintro (h | h)
        · exact Or.inl h
        · exact Or.inr (List.mem_cons_of_mem _ h)
      · rintro (h | h)
        · exact Or.inl h
        · rcases List.mem_cons.1 h with h | h
          · exact Or.inl (h ▸ hx)
          · exact Or.inr h
    · have hc : ¬ (old.contains x = true) := fun hcon => hx (List.elem_iff.1 hcon)
      rw [if_neg hc, ih]
      simp only [List.mem_append, List.mem_singleton, List.mem_cons]
      tauto

/-- The merged row `upsert_endpoint` writes over an existing row. -/
def mergeRow (e : EndpointRow) (u : EndpointUpsert) : EndpointRow :=
  { e with
    methods := setUnion e.methods u.methods,
    status_codes := setUnion e.status_codes u.status_codes,
    content_types := setUnion e.content_types u.content_types,
    auth_required := if u.auth_required then true else e.auth_required,
    auth_type_hint :=
      if u.auth_type_hint ≠ "" then u.auth_type_hint else e.auth_type_hint }

/-- The fresh row `upsert_endpoint` inserts for an unknown path. -/
def freshRow (u : EndpointUpsert) : EndpointRow :=
  { path := u.path, methods := u.methods, status_codes := u.status_codes,
    auth_required := u.auth_required, auth_type_hint := u.auth_type_hint,
    content_types := u.content_types, discovered_by := u.discovered_by }

/-- Finding the upsert path in the mapped (update-branch) table yields the
merge of the first previously stored row. -/
theorem findRow_map_merge (rows : List EndpointRow) (u : EndpointUpsert) :
    findRow (rows.map (fun e => if e.path = u.path then mergeRow e u else e)) u.path
      = (findRow rows u.path).map (fun e => mergeRow e u) := by
  induction rows with
  | nil => rfl
  | cons a rest ih =>
    rw [List.map_cons]
    by_cases ha : a.path = u.path
    · rw [if_pos ha]
      rw [findRow, List.find?_cons_of_pos _ (by simp [mergeRow, ha]),
        findRow, List.find?_cons_of_pos _ (by simp [ha])]
      rfl
    · rw [if_neg ha]
      rw [findRow, List.find?_cons_of_neg _ (by simp [ha]),
        findRow, List.find?_cons_of_neg _ (by simp [ha])]
      exact ih

/-- Finding a different path is unaffected by the update-branch map. -/
theorem findRow_map_merge_ne (rows : List EndpointRow) (u : EndpointUpsert)
    (p : String) (hp : p ≠ u.path) :
    findRow (rows.map (fun e => if e.path = u.path then mergeRow e u else e)) p
      = findRow rows p := by
  induction rows with
  | nil => rfl
  | cons a rest ih =>
    rw [List.map_cons]
    by_cases ha : a.path = u.path
    · have hap : ¬ a.path = p := fun hc => hp (ha ▸ hc).symm
      rw [if_pos ha]
      rw [findRow, List.find?_cons_of_neg _ (by simp [mergeRow]; exact fun hc => hp (ha ▸ hc).symm),
        findRow, List.find?_cons_of_neg _ (by simp [hap])]
      exact ih
    · rw [if_neg ha]
      by_cases hap : a.path = p
      · rw [findRow, List.find?_cons_of_pos _ (by simp [hap]),
          findRow, List.find?_cons_of_pos _ (by simp [hap])]
      · rw [findRow, List.find?_cons_of_neg _ (by simp [hap]),
          findRow, List.find?_cons_of_neg _ (by simp [hap])]
        exact ih

/-- After an upsert, the row under the upsert's own path is present: the
merge of the previously stored row, or the fresh insert. -/
theorem findRow_upsert_self (rows : List EndpointRow) (u : EndpointUpsert) :
    findRow (upsert_endpoint rows u) u.path =
      some ((findRow rows u.path).elim (freshRow u) (fun e => mergeRow e u)) := by
  by_cases h : rows.any (fun e => e.path = u.path) = true
  · have hmap : upsert_endpoint rows u = rows.map
        (fun e => if e.path = u.path then mergeRow e u else e) := by
      rw [upsert_endpoint, if_pos h]
      rfl
    rw [hmap, findRow_map_merge]
    have hsome : ∃ e0, findRow rows u.path = some e0 := by
      rw [← Option.isSome_iff_exists]
      rw [findRow, List.find?_isSome]
      rw [List.any_eq_true] at h
      obtain ⟨e, he, hep⟩ := h
      exact ⟨e, he, hep⟩
    obtain ⟨e0, he0⟩ := hsome
    rw [he0]
    rfl
  · have hins : upsert_endpoint rows u = rows ++ [freshRow u] := by
      rw [upsert_endpoint, if_neg h]
      rfl
    have hnone : findRow rows u.path = none := by
      rw [findRow, List.find?_eq_none]
      intro e he hep
      exact h (List.any_eq_true.2 ⟨e, he, hep⟩)
    rw [hins, hnone]
    show findRow (rows ++ [freshRow u]) u.path = some (freshRow u)
    rw [findRow, List.find?_append]
    have h2 : List.find? (fun e => decide (e.path = u.path)) rows = none := hnone
    rw [h2, Option.none_or, List.find?_cons_of_pos _ (by simp [freshRow])]

/-- Rows under other paths are unaffected by an upsert. -/
theorem findRow_upsert_ne (rows : List EndpointRow) (u : EndpointUpsert)
    (p : String) (hp : p ≠ u.path) :
    findRow (upsert_endpoint rows u) p = findRow rows p := by
  by_cases h : rows.any (fun e => e.path = u.path) = true
  · have hmap : upsert_endpoint rows u = rows.map
        (fun e => if e.path = u.path then mergeRow e u else e) := by
      rw [upsert_endpoint, if_pos h]
      rfl
    rw [hmap, findRow_map_merge_ne _ _ _ hp]
  · have hins : upsert_endpoint rows u = rows ++ [freshRow u] := by
      rw [upsert_endpoint, if_neg h]
      rfl
    rw [hins, findRow, List.find?_append]
    cases hfound : List.find? (fun e => decide (e.path = p)) rows with
    | some e =>
      rw [findRow, hfound]
      rfl
    | none =>
      rw [findRow, hfound, Option.none_or,
        List.find?_cons_of_neg _ (by simp [freshRow]; exact fun hc => hp hc.symm)]
      rfl

/-- The endpoint table produced by a sequence of upserts on an initially
empty store. -/
def endpointTable (inputs : List EndpointUpsert) : List EndpointRow :=
  inputs.foldl upsert_endpoint []

/-- The fold the hint column performs over a sequence of upserts: each
non-empty incoming hint overwrites, empty ones are ignored. -/
def hintFold (inputs : List EndpointUpsert) : String :=
  inputs.foldl (fun h u => if u.auth_type_hint ≠ "" then u.auth_type_hint else h) ""

/-- Full characterization of the endpoint table after any upsert
sequence: a missing row means no upsert used that path, and a present
row's sets are the membership union of everything supplied for the path,
its auth flag the disjunction, and its hint the overwrite fold. -/
theorem endpointTable_spec (inputs : List EndpointUpsert) (p : String) :
    (findRow (endpointTable inputs) p = none → ∀ u ∈ inputs, u.path ≠ p) ∧
    (∀ e, findRow (endpointTable inputs) p = some e →
      (∀ m, m ∈ e.methods ↔ ∃ u ∈ inputs, u.path = p ∧ m ∈ u.methods) ∧
      (∀ c, c ∈ e.status_codes ↔ ∃ u ∈ inputs, u.path = p ∧ c ∈ u.status_codes) ∧
      (∀ t, t ∈ e.content_types ↔ ∃ u ∈ inputs, u.path = p ∧ t ∈ u.content_types) ∧
      e.auth_required = (inputs.filter (fun u => u.path = p)).any
        (fun u => u.auth_required) ∧
      e.auth_type_hint = hintFold (inputs.filter (fun u => u.path = p))) := by
  induction inputs using List.reverseRecOn with
  | nil =>
    constructor
    · intro _ u hu
      simp at hu
    · intro e he
      simp [endpointTable, findRow, List.find?] at he
  | append_singleton l u ih =>
    have htab : endpointTable (l ++ [u]) = upsert_endpoint (endpointTable l) u := by
      rw [endpointTable, List.foldl_append]
      rfl
    by_cases hp : p = u.path
    · subst hp
      rw [htab]
      constructor
      · intro hnone
        rw [findRow_upsert_self] at hnone
        cases hnone
      · intro e he
        rw [findRow_upsert_self] at he
        cases hfind : findRow (endpointTable l) u.path with
        | none =>
          rw [hfind] at he
          have hee : e = freshRow u := by
            injection he with h
            exact h.symm
          subst hee
          have hnoprev : ∀ v ∈ l, v.path ≠ u.path := ih.1 hfind
          have hfilter : l.filter (fun v => v.path = u.path) = [] := by
            rw [List.filter_eq_nil_iff]
            intro v hv
            simp [hnoprev v hv]
          refine ⟨?_, ?_, ?_, ?_, ?_⟩
          · intro m
            constructor
            · intro hm
              exact ⟨u, by simp, rfl, hm⟩
            · rintro ⟨v, hv, hvp, hm⟩
              rcases List.mem_append.1 hv with hv | hv
              · exact absurd hvp (hnoprev v hv)
              · rw [List.mem_singleton] at hv
                subst hv
                exact hm
          · intro c
            constructor
            · intro hc
              exact ⟨u, by simp, rfl, hc⟩
            · rintro ⟨v, hv, hvp, hc⟩
              rcases List.mem_append.1 hv with hv | hv
              · exact absurd hvp (hnoprev v hv)
              · rw [List.mem_singleton] at hv
                subst hv
                exact hc
          · intro t
            constructor
            · intro ht
              exact ⟨u, by simp, rfl, ht⟩
            · rintro ⟨v, hv, hvp, ht⟩
              rcases List.mem_append.1 hv with hv | hv
              · exact absurd hvp (hnoprev v hv)
              · rw [List.mem_singleton] at hv
                subst hv
                exact ht
          · rw [List.filter_append, hfilter]
            simp [freshRow]
          · rw [List.filter_append, hfilter]
            simp only [List.nil_append]
            show u.auth_type_hint = hintFold (List.filter _ [u])
            have : List.filter (fun v => decide (v.path = u.path)) [u] = [u] := by
              simp
            rw [this]
            show u.auth_type_hint =
              (if u.auth_type_hint ≠ "" then u.auth_type_hint else "")
            by_cases hh : u.auth_type_hint = ""
            · simp [hh]
            · simp [hh]
        | some e0 =>
          rw [hfind] at he
          have hee : e = mergeRow e0 u := by
            injection he with h
            exact h.symm
          subst hee
          obtain ⟨hm0, hc0, ht0, ha0, hh0⟩ := ih.2 e0 hfind
          have hfilter : (l ++ [u]).filter (fun v => v.path = u.path) =
              l.filter (fun v => v.path = u.path) ++ [u] := by
            rw [List.filter_append]
            simp
          refine ⟨?_, ?_, ?_, ?_, ?_⟩
          · intro m
            rw [show (mergeRow e0 u).methods = setUnion e0.methods u.methods from rfl,
              mem_setUnion, hm0 m]
            constructor
            · rintro (⟨v, hv, hvp, hm⟩ | hm)
              · exact ⟨v, List.mem_append.2 (Or.inl hv), hvp, hm⟩
              · exact ⟨u, List.mem_append.2 (Or.inr (List.mem_singleton.2 rfl)), rfl, hm⟩
            · rintro ⟨v, hv, hvp, hm⟩
              rcases List.mem_append.1 hv with hv | hv
              · exact Or.inl ⟨v, hv, hvp, hm⟩
              · rw [List.mem_singleton] at hv
                subst hv
                exact Or.inr hm
          · intro c
            rw [show (mergeRow e0 u).status_codes = setUnion e0.status_codes u.status_codes from rfl,
              mem_setUnion, hc0 c]
            constructor
            · rintro (⟨v, hv, hvp, hm⟩ | hm)
              · exact ⟨v, List.mem_append.2 (Or.inl hv), hvp, hm⟩
              · exact ⟨u, List.mem_append.2 (Or.inr (List.mem_singleton.2 rfl)), rfl, hm⟩
            · rintro ⟨v, hv, hvp, hm⟩
              rcases List.mem_append.1 hv with hv | hv
              · exact Or.inl ⟨v, hv, hvp, hm⟩
              · rw [List.mem_singleton] at hv
                subst hv
                exact Or.inr hm
          · intro t
            rw [show (mergeRow e0 u).content_types = setUnion e0.content_types u.content_types from rfl,
              mem_setUnion, ht0 t]
            constructor
            · rintro (⟨v, hv, hvp, hm⟩ | hm)
              · exact ⟨v, List.mem_append.2 (Or.inl hv), hvp, hm⟩
              · exact ⟨u, List.mem_append.2 (Or.inr (List.mem_singleton.2 rfl)), rfl, hm⟩
            · rintro ⟨v, hv, hvp, hm⟩
              rcases List.mem_append.1 hv with hv | hv
              · exact Or.inl ⟨v, hv, hvp, hm⟩
              · rw [List.mem_singleton] at hv
                subst hv
                exact Or.inr hm
          · rw [hfilter, List.any_append]
            show (if u.auth_required then true else e0.auth_required) = _
            rw [ha0]
            have h1 : List.any [u] (fun v => v.auth_required) = u.auth_required := by
              simp
            rw [h1]
            cases u.auth_required
            · simp
            · simp
          · rw [hfilter, hintFold, List.foldl_append]
            show (if u.auth_type_hint ≠ "" then u.auth_type_hint else e0.auth_type_hint) = _
            rw [hh0]
            rfl
    · rw [htab, findRow_upsert_ne _ _ _ hp]
      have hfilter : (l ++ [u]).filter (fun v => v.path = p) =
          l.filter (fun v => v.path = p) := by
        rw [List.filter_append]
        have : List.filter (fun v => decide (v.path = p)) [u] = [] := by
          simp
          exact fun hc => hp hc.symm
        rw [this, List.append_nil]
      constructor
      · intro hnone v hv
        rcases List.mem_append.1 hv with hv | hv
        · exact ih.1 hnone v hv
        · rw [List.mem_singleton] at hv
          subst hv
          exact fun hc => hp hc.symm
      · intro e he
        obtain ⟨hm0, hc0, ht0, ha0, hh0⟩ := ih.2 e he
        refine ⟨?_, ?_, ?_, ?_, ?_⟩
        · intro m
          rw [hm0 m]
          constructor
          · rintro ⟨v, hv, hvp, hm⟩
            exact ⟨v, List.mem_append.2 (Or.inl hv), hvp, hm⟩
          · rintro ⟨v, hv, hvp, hm⟩
            rcases List.mem_append.1 hv with hv | hv
            · exact ⟨v, hv, hvp, hm⟩
            · rw [List.mem_singleton] at hv
              subst hv
              exact absurd hvp.symm hp
        · intro c
          rw [hc0 c]
          constructor
          · rintro ⟨v, hv, hvp, hm⟩
            exact ⟨v, List.mem_append.2 (Or.inl hv), hvp, hm⟩
          · rintro ⟨v, hv, hvp, hm⟩
            rcases List.mem_append.1 hv with hv | hv
            · exact ⟨v, hv, hvp, hm⟩
            · rw [List.mem_singleton] at hv
              subst hv
              exact absurd hvp.symm hp
        · intro t
          rw [ht0 t]
          constructor
          · rintro ⟨v, hv, hvp, hm⟩
            exact ⟨v, List.mem_append.2 (Or.inl hv), hvp, hm⟩
          · rintro ⟨v, hv, hvp, hm⟩
            rcases List.mem_append.1 hv with hv | hv
            · exact ⟨v, hv, hvp, hm⟩
            · rw [List.mem_singleton] at hv
              subst hv
              exact absurd hvp.symm hp
        · rw [ha0, hfilter]
        · rw [hh0, hfilter]

/-- C3: for every sequence of endpoint upserts on one `(service, path)`
key, the stored method, status-code and content-type sets equal the union
of all sets ever supplied for that path; `auth_required` is the
disjunction of the supplied flags (so once true it never becomes false,
as the latching conjunct over any later upserts states explicitly); and
`auth_type_hint` is the fold that overwrites only on non-empty incoming
values. -/
theorem C3_endpoint_upsert_union (inputs : List EndpointUpsert) (p : String)
    (e : EndpointRow) (he : findRow (endpointTable inputs) p = some e) :
    (∀ m, m ∈ e.methods ↔ ∃ u ∈ inputs, u.path = p ∧ m ∈ u.methods) ∧
    (∀ c, c ∈ e.status_codes ↔ ∃ u ∈ inputs, u.path = p ∧ c ∈ u.status_codes) ∧
    (∀ t, t ∈ e.content_types ↔ ∃ u ∈ inputs, u.path = p ∧ t ∈ u.content_types) ∧
    e.auth_required = (inputs.filter (fun u => u.path = p)).any
      (fun u => u.auth_required) ∧
    e.auth_type_hint = hintFold (inputs.filter (fun u => u.path = p)) ∧
    (∀ more e', findRow (endpointTable (inputs ++ more)) p = some e' →
      e.auth_required = true → e'.auth_required = true) := by
  obtain ⟨hm, hc, ht, ha, hh⟩ := (endpointTable_spec inputs p).2 e he
  refine ⟨hm, hc, ht, ha, hh, ?_⟩
  intro more e' he' hauth
  obtain ⟨_, _, _, ha', _⟩ := (endpointTable_spec (inputs ++ more) p).2 e' he'
  rw [ha', List.filter_append, List.any_append]
  rw [ha] at hauth
  rw [hauth]
  rfl

/-- A concrete upsert used to witness C3. -/
def c3Upsert : EndpointUpsert :=
  { path := "/a",
    methods := ["GET"],
    status_codes := [200],
    auth_required := true,
    auth_type_hint := "bearer",
    content_types := ["application/json"],
    discovered_by := "wordlist" }

/-- Witness for C3 at a one-element upsert sequence. -/
theorem C3_endpoint_upsert_union_witness :
    "GET" ∈ (freshRow c3Upsert).methods ↔
      ∃ u ∈ [c3Upsert], u.path = "/a" ∧ "GET" ∈ u.methods := by
  have h := C3_endpoint_upsert_union [c3Upsert] "/a" (freshRow c3Upsert) rfl
  exact h.1 "GET"

/-! ## C5 — schema extraction round trip -/

mutual

/-- All strings occurring in a JSON value: string leaves and object keys
(arrays contribute all their elements). -/
def jsonStrings : Json → List String
  | .str s => [s]
  | .arr xs => jsonStringsList xs
  | .obj kvs => jsonStringsFields kvs
  | _ => []

/-- Strings of the elements of an array. -/
def jsonStringsList : List Json → List String
  | [] => []
  | x :: rest => jsonStrings x ++ jsonStringsList rest

/-- Strings of an object: every key and the strings of every value. -/
def jsonStringsFields : List (String × Json) → List String
  | [] => []
  | (k, v) :: rest => k :: (jsonStrings v ++ jsonStringsFields rest)

end

mutual

/-- All object keys occurring in a JSON value. -/
def jsonKeys : Json → List String
  | .arr xs => jsonKeysList xs
  | .obj kvs => jsonKeysFields kvs
  | _ => []

/-- Keys of the elements of an array. -/
def jsonKeysList : List Json → List String
  | [] => []
  | x :: rest => jsonKeys x ++ jsonKeysList rest

/-- Keys of an object: every key and the keys of every value. -/
def jsonKeysFields : List (String × Json) → List String
  | [] => []
  | (k, v) :: rest => k :: (jsonKeys v ++ jsonKeysFields rest)

end

/-- The fixed vocabulary `extract_schema` writes into a descriptor: its
dictionary keys and type tags. (The source's `unknown` tag is
unreachable for values produced by `json.loads`, which only yields the
seven modelled variants.) -/
def schemaKeywords : List String :=
  ["type", "null", "boolean", "integer", "number", "string",
   "example_length", "array", "length", "items", "object", "properties",
   "field_count"]

/-- C5 counterexample: `extract_schema` is not idempotent — applied to
its own output it describes the descriptor, not the value — and the
descriptor does contain strings occurring in the input, namely its
object keys. -/
theorem C5_schema_not_idempotent :
    extract_schema (extract_schema Json.null) ≠ extract_schema Json.null ∧
    "secret" ∈ jsonStrings (Json.obj [("secret", Json.null)]) ∧
    "secret" ∈ jsonStrings (extract_schema (Json.obj [("secret", Json.null)])) := by
  refine ⟨?_, ?_, ?_⟩
  · simp [extract_schema, extract_schema_fields]
  · simp [jsonStrings, jsonStringsFields]
  · simp [extract_schema, extract_schema_fields, jsonStrings, jsonStringsFields]

/-- C5 amended, auxiliary form with an explicit size bound for the
induction: every string in a descriptor is a fixed schema keyword or an
object key of the described value — string leaf contents never appear,
only their lengths. -/
theorem schema_strings_bounded : ∀ (n : Nat) (x : Json), sizeOf x ≤ n →
    ∀ s ∈ jsonStrings (extract_schema x), s ∈ schemaKeywords ∨ s ∈ jsonKeys x := by
  intro n
  induction n with
  | zero =>
    intro x hx
    exact absurd hx (by cases x <;> simp)
  | succ n ih =>
    intro x hx s hs
    cases x with
    | null =>
      exact Or.inl ((by decide : ∀ t ∈ ["type", "null"], t ∈ schemaKeywords) s hs)
    | bool b =>
      exact Or.inl ((by decide : ∀ t ∈ ["type", "boolean"], t ∈ schemaKeywords) s hs)
    | int v =>
      exact Or.inl ((by decide : ∀ t ∈ ["type", "integer"], t ∈ schemaKeywords) s hs)
    | float q =>
      exact Or.inl ((by decide : ∀ t ∈ ["type", "number"], t ∈ schemaKeywords) s hs)
    | str s0 =>
      by_cases h0 : s0.length > 0
      · have h : jsonStrings (extract_schema (Json.str s0)) =
            ["type", "string", "example_length"] := by
          simp [extract_schema, h0, jsonStrings, jsonStringsFields]
        rw [h] at hs
        exact Or.inl
          ((by decide : ∀ t ∈ ["type", "string", "example_length"],
            t ∈ schemaKeywords) s hs)
      · have h : jsonStrings (extract_schema (Json.str s0)) = ["type", "string"] := by
          simp [extract_schema, h0, jsonStrings, jsonStringsFields]
        rw [h] at hs
        exact Or.inl ((by decide : ∀ t ∈ ["type", "string"], t ∈ schemaKeywords) s hs)
    | arr xs =>
      cases xs with
      | nil =>
        exact Or.inl
          ((by decide : ∀ t ∈ ["type", "array", "length"], t ∈ schemaKeywords) s hs)
      | cons x rest =>
        have h : jsonStrings (extract_schema (Json.arr (x :: rest))) =
            ["type", "array", "length", "items"] ++ jsonStrings (extract_schema x) := by
          simp [extract_schema, jsonStrings, jsonStringsFields]
        rw [h, List.mem_append] at hs
        rcases hs with hs | hs
        · exact Or.inl
            ((by decide : ∀ t ∈ ["type", "array", "length", "items"],
              t ∈ schemaKeywords) s hs)
        · have hsz : sizeOf x ≤ n := by
            have h1 : sizeOf (Json.arr (x :: rest)) = 1 + (1 + sizeOf x + sizeOf rest) := by
              simp
            omega
          rcases ih x hsz s hs with h | h
          · exact Or.inl h
          · refine Or.inr ?_
            show s ∈ jsonKeysList (x :: rest)
            rw [show jsonKeysList (x :: rest) = jsonKeys x ++ jsonKeysList rest from rfl,
              List.mem_append]
            exact Or.inl h
    | obj kvs =>
      have h : jsonStrings (extract_schema (Json.obj kvs)) =
          ["type", "object", "properties"] ++
            (jsonStringsFields (extract_schema_fields kvs) ++ ["field_count"]) := by
        simp [extract_schema, jsonStrings, jsonStringsFields]
      rw [h, List.mem_append] at hs
      have inner : ∀ (kvs' : List (String × Json)),
          (∀ q ∈ kvs', sizeOf q.2 ≤ n) →
          ∀ t ∈ jsonStringsFields (extract_schema_fields kvs'),
            t ∈ schemaKeywords ∨ t ∈ jsonKeysFields kvs' := by
        intro kvs'
        induction kvs' with
        | nil =>
          intro _ t ht
          simp [extract_schema_fields, jsonStringsFields] at ht
        | cons q rest ihq =>
          intro hq t ht
          obtain ⟨k, v⟩ := q
          rw [show extract_schema_fields ((k, v) :: rest) =
              (k, extract_schema v) :: extract_schema_fields rest from rfl,
            show jsonStringsFields ((k, extract_schema v) :: extract_schema_fields rest) =
              k :: (jsonStrings (extract_schema v) ++
                jsonStringsFields (extract_schema_fields rest)) from rfl] at ht
          rcases List.mem_cons.1 ht with rfl | ht
          · refine Or.inr ?_
            show t ∈ t :: (jsonKeys v ++ jsonKeysFields rest)
            exact List.mem_cons_self _ _
          · rw [List.mem_append] at ht
            rcases ht with ht | ht
            · have hv : sizeOf v ≤ n := by
                have := hq (k, v) (List.mem_cons_self _ _)
                exact this
              rcases ih v hv t ht with hh | hh
              · exact Or.inl hh
              · refine Or.inr ?_
                show t ∈ k :: (jsonKeys v ++ jsonKeysFields rest)
                exact List.mem_cons_of_mem _ (List.mem_append.2 (Or.inl hh))
            · rcases ihq (fun q hqq => hq q (List.mem_cons_of_mem _ hqq)) t ht with hh | hh
              · exact Or.inl hh
              · refine Or.inr ?_
                show t ∈ k :: (jsonKeys v ++ jsonKeysFields rest)
                exact List.mem_cons_of_mem _ (List.mem_append.2 (Or.inr hh))
      rcases hs with hs | hs
      · exact Or.inl
          ((by decide : ∀ t ∈ ["type", "object", "properties"],
            t ∈ schemaKeywords) s hs)
      · rw [List.mem_append] at hs
        rcases hs with hs | hs
        · have hq : ∀ q ∈ kvs, sizeOf q.2 ≤ n := by
            intro q hqq
            have h1 := List.sizeOf_lt_of_mem hqq
            have h2 : sizeOf (Json.obj kvs) = 1 + sizeOf kvs := by simp
            obtain ⟨k, v⟩ := q
            show sizeOf v ≤ n
            have h3 : sizeOf ((k, v) : String × Json) = 1 + sizeOf k + sizeOf v := by
              simp
            rw [h3] at h1
            omega
          rcases inner kvs hq s hs with hh | hh
          · exact Or.inl hh
          · exact Or.inr hh
        · exact Or.inl
            ((by decide : ∀ t ∈ ["field_count"], t ∈ schemaKeywords) s hs)

/-- C5 amended: `extract_schema` is deterministic but not idempotent
(its output is itself a JSON object, so a second application yields the
object-descriptor of the descriptor); the shape descriptor never
contains the content of any string leaf of the input — every string in
it is a fixed schema keyword or an object key of the input, and string
leaves contribute only their lengths. -/
theorem C5_schema_strings_are_keywords_or_keys (x : Json) :
    ∀ s ∈ jsonStrings (extract_schema x), s ∈ schemaKeywords ∨ s ∈ jsonKeys x :=
  schema_strings_bounded (sizeOf x) x (Nat.le_refl _)

/-- Witness for C5 at a concrete value. -/
theorem C5_schema_strings_witness :
    "type" ∈ jsonStrings (extract_schema (Json.str "hello")) ∧
    ("type" ∈ schemaKeywords ∨ "type" ∈ jsonKeys (Json.str "hello")) := by
  have hmem : "type" ∈ jsonStrings (extract_schema (Json.str "hello")) := by
    decide
  exact ⟨hmem, C5_schema_strings_are_keywords_or_keys (Json.str "hello") "type" hmem⟩

/-! ## C9 — link normalization idempotence -/

/-- The head of a non-empty `dropWhile` result fails the predicate. -/
theorem head?_dropWhile_not (p : Char → Bool) :
    ∀ (l : List Char) (a : Char), (l.dropWhile p).head? = some a → p a = false := by
  intro l
  induction l with
  | nil =>
    intro a h
    simp [List.dropWhile] at h
  | cons x xs ih =>
    intro a h
    by_cases hx : p x = true
    · rw [List.dropWhile_cons_of_pos hx] at h
      exact ih a h
    · rw [List.dropWhile_cons_of_neg hx] at h
      injection h with h
      subst h
      exact Bool.eq_false_iff.2 hx

/-- Stripping trailing slashes yields a prefix. -/
theorem rstripSlashChars_prefix (l : List Char) : rstripSlashChars l <+: l := by
  have h := List.reverse_prefix.2 (List.dropWhile_suffix (l := l.reverse)
    (p := fun c => c = '/'))
  rw [List.reverse_reverse] at h
  exact h

/-- A non-empty slash-stripped list does not end in a slash. -/
theorem rstripSlashChars_getLast (l : List Char) :
    (rstripSlashChars l).getLast? ≠ some '/' := by
  intro hc
  rw [rstripSlashChars, List.getLast?_reverse] at hc
  have := head?_dropWhile_not (fun c => c = '/') l.reverse '/' hc
  simp at this

/-- A non-empty prefix shares the head. -/
theorem IsPrefix.head?_eq {l₁ l₂ : List Char} (h : l₁ <+: l₂) (hne : l₁ ≠ []) :
    l₂.head? = l₁.head? := by
  obtain ⟨t, rfl⟩ := h
  cases l₁ with
  | nil => exact absurd rfl hne
  | cons a l => rfl

/-- A singleton-slash Boolean prefix test forces the head. -/
theorem isPrefixOf_slash_head {l : List Char} (h : (['/'] : List Char).isPrefixOf l = true) :
    l.head? = some '/' := by
  cases l with
  | nil => simp [List.isPrefixOf] at h
  | cons c t =>
    simp [List.isPrefixOf] at h
    simp [← h]

/-- Structure of a successful `normalizeTail` run on a slash-headed
input: the result is non-empty, slash-headed, free of `?` and `#`, and
either the root or not slash-terminated. -/
theorem normalizeTail_props (l : List Char) (p : List Char)
    (hh : l.head? = some '/') (h : normalizeTail l = some p) :
    p ≠ [] ∧ p.head? = some '/' ∧ (∀ c ∈ p, c ≠ '?' ∧ c ≠ '#') ∧
    (p = ['/'] ∨ p.getLast? ≠ some '/') := by
  simp only [normalizeTail] at h
  set l3 := l.takeWhile (fun c => decide (c ≠ '?')) with hl3
  set l4 := l3.takeWhile (fun c => decide (c ≠ '#')) with hl4
  have hl3head : l3.head? = some '/' := by
    cases l with
    | nil => simp at hh
    | cons c t =>
      injection hh with hh
      subst hh
      rw [hl3, List.takeWhile_cons]
      simp
  have hl4head : l4.head? = some '/' := by
    cases hc : l3 with
    | nil =>
      rw [hc] at hl3head
      simp at hl3head
    | cons c t =>
      rw [hc] at hl3head
      injection hl3head with hl3head
      subst hl3head
      rw [hl4, hc, List.takeWhile_cons]
      simp
  have hl4mem : ∀ c ∈ l4, c ≠ '?' ∧ c ≠ '#' := by
    intro c hc
    constructor
    · have hc3 : c ∈ l3 := (List.takeWhile_prefix _).subset hc
      have := List.mem_takeWhile_imp hc3
      simpa using this
    · have := List.mem_takeWhile_imp hc
      simpa using this
  by_cases hcond : (l4 ≠ ['/'] && (l4.getLast? = some '/' : Bool)) = true
  · rw [if_pos hcond] at h
    have hne : rstripSlashChars l4 ≠ [] := by
      intro hz
      rw [hz] at h
      simp at h
    rw [if_pos hne] at h
    injection h with h
    subst h
    have hpfx := rstripSlashChars_prefix l4
    refine ⟨hne, ?_, ?_, Or.inr (rstripSlashChars_getLast l4)⟩
    · rw [← IsPrefix.head?_eq hpfx hne]
      exact hl4head
    · intro c hc
      exact hl4mem c (hpfx.subset hc)
  · rw [if_neg hcond] at h
    have hne : l4 ≠ [] := by
      intro hz
      rw [hz] at hl4head
      simp at hl4head
    rw [if_pos hne] at h
    injection h with h
    subst h
    refine ⟨hne, hl4head, hl4mem, ?_⟩
    by_cases hroot : l4 = ['/']
    · exact Or.inl hroot
    · refine Or.inr ?_
      intro hlast
      exact hcond (by simp [hroot, hlast])

/-- `normalizeTail` fixes any value with the result shape. -/
theorem normalizeTail_fixed (p : List Char) (hne : p ≠ [])
    (hmem : ∀ c ∈ p, c ≠ '?' ∧ c ≠ '#')
    (hlast : p = ['/'] ∨ p.getLast? ≠ some '/') :
    normalizeTail p = some p := by
  simp only [normalizeTail]
  have h3 : p.takeWhile (fun c => decide (c ≠ '?')) = p := by
    rw [List.takeWhile_eq_self_iff]
    intro c hc
    simpa using (hmem c hc).1
  rw [h3]
  have h4 : p.takeWhile (fun c => decide (c ≠ '#')) = p := by
    rw [List.takeWhile_eq_self_iff]
    intro c hc
    simpa using (hmem c hc).2
  rw [h4]
  have hcond : (p ≠ ['/'] && (p.getLast? = some '/' : Bool)) = false := by
    rcases hlast with h | h
    · simp [h]
    · simp [h]
  rw [hcond]
  simp [hne]

/-- C9: link normalization is idempotent — for every link on which
normalization yields a path, normalizing that path again returns it
unchanged. The base URL is the service base URL, which (being an
`http(s)://` URL or empty) does not begin with `/`; a base URL that
itself began with `/` could be stripped twice and is excluded by the
hypothesis. -/
theorem C9_normalize_link_idempotent (link base p : List Char)
    (hbase : base.head? ≠ some '/')
    (h : normalizeLinkChars link base = some p) :
    normalizeLinkChars p base = some p := by
  have hl2head : (if (['/'] : List Char).isPrefixOf
        (if base.isPrefixOf link then link.drop base.length else link) then
        (if base.isPrefixOf link then link.drop base.length else link)
      else '/' :: (if base.isPrefixOf link then link.drop base.length else link)).head?
      = some '/' := by
    by_cases hp : (['/'] : List Char).isPrefixOf
        (if base.isPrefixOf link then link.drop base.length else link) = true
    · rw [if_pos hp]
      exact isPrefixOf_slash_head hp
    · rw [if_neg hp]
      rfl
  have hprops := normalizeTail_props _ p hl2head h
  obtain ⟨hne, hhead, hmem, hlast⟩ := hprops
  obtain ⟨t, rfl⟩ : ∃ t, p = '/' :: t := by
    cases p with
    | nil => exact absurd rfl hne
    | cons c t =>
      injection hhead with hh
      exact ⟨t, by rw [hh]⟩
  show normalizeLinkChars ('/' :: t) base = some ('/' :: t)
  simp only [normalizeLinkChars]
  have hstep1 : (if base.isPrefixOf ('/' :: t) then ('/' :: t).drop base.length
      else ('/' :: t)) = '/' :: t := by
    cases base with
    | nil =>
      simp
    | cons b bs =>
      have hbne : b ≠ '/' := by
        intro hbc
        rw [hbc] at hbase
        simp at hbase
      have hnp : (b :: bs).isPrefixOf ('/' :: t) = false := by
        show ((b == '/') && bs.isPrefixOf t) = false
        have hb' : (b == '/') = false := by
          simpa using hbne
        rw [hb']
        rfl
      rw [hnp]
      simp
  rw [hstep1]
  have hstep2 : (['/'] : List Char).isPrefixOf ('/' :: t) = true := by
    simp [List.isPrefixOf]
  rw [hstep2]
  simp only [if_true]
  exact normalizeTail_fixed ('/' :: t) hne hmem hlast

/-- Witness for C9 at a concrete link. -/
theorem C9_normalize_link_idempotent_witness :
    normalizeLinkChars ("/a/b/".toList) ("http://x.test".toList) =
      some ("/a/b".toList) ∧
    normalizeLinkChars ("/a/b".toList) ("http://x.test".toList) =
      some ("/a/b".toList) := by
  have h1 : normalizeLinkChars ("/a/b/".toList) ("http://x.test".toList) =
      some ("/a/b".toList) := by decide
  have h2 : ("http://x.test".toList).head? ≠ some '/' := by decide
  exact ⟨h1, C9_normalize_link_idempotent _ _ _ h2 h1⟩

/-! ## C8 — spec scanner first-match semantics -/

/-- The acceptance test `detect_openapi` applies to a fetched response:
successful status, non-empty body, and a body parsing as a spec. -/
def acceptSpec (jparse : String → Option Json) (r : Resp) : Option Json :=
  if r.ok && r.body ≠ "" then try_parse_spec jparse r.body else none

/-- Number of requests issued for the first `i` paths: the
robots-allowed ones among them. -/
def allowedBefore (allowed : String → Bool) (paths : List String) (i : Nat) : Nat :=
  ((paths.take i).filter (fun p => allowed p)).length

/-- Modelled from the claim's wording, for comparison with the source's
`detect_openapi`: request the specification paths in their fixed order
and return the URL and document of the first response whose body
JSON-parses to a mapping containing one of the keys
`paths`/`swagger`/`openapi` — with no success-status or non-empty-body
requirement. -/
def claimedDetectLoop (jparse : String → Option Json) (oracle : Nat → Resp)
    (base_url : String) : List String → Nat → Option (String × Json) × Nat
  | [], count => (none, count)
  | p :: rest, count =>
    let (resp, count) := clientRequest oracle count
    match try_parse_spec jparse resp.body with
    | some spec => (some (base_url ++ p, spec), count)
    | none => claimedDetectLoop jparse oracle base_url rest count

/-- The claim's detector over the fixed path list. -/
def claimed_detect_openapi (jparse : String → Option Json) (oracle : Nat → Resp)
    (base_url : String) (count : Nat) : Option (String × Json) × Nat :=
  claimedDetectLoop jparse oracle (rstripSlash base_url) SWAGGER_PATHS count

/-- The spec document used in the C8 counterexample. -/
def c8Spec : Json := Json.obj [("paths", Json.null)]

/-- A parse oracle recognizing exactly the body `SPEC`. -/
def c8Jparse : String → Option Json :=
  fun s => if s = "SPEC" then some c8Spec else none

/-- A wire where the first request is answered 404 with a spec-shaped
body and every later one 200 with the same body. -/
def c8Oracle : Nat → Resp :=
  fun n =>
    { method := "GET",
      status_code := if n = 0 then 404 else 200,
      headers := [],
      body := "SPEC",
      content_type := "application/json",
      elapsed_ms := 0,
      error := "" }

/-- C8 counterexample: a 404 response whose body parses as a spec is
skipped by the source (which additionally requires a successful status
and a non-empty body), so the source returns the second path while the
claim's reading returns the first. -/
theorem C8_detect_skips_unsuccessful :
    (detect_openapi c8Jparse c8Oracle "http://x.test" none 0).1.map Prod.fst =
      some "http://x.test/openapi.json" ∧
    (claimed_detect_openapi c8Jparse c8Oracle "http://x.test" 0).1.map Prod.fst =
      some "http://x.test/swagger.json" ∧
    ("http://x.test/openapi.json" : String) ≠ "http://x.test/swagger.json" := by
  refine ⟨by decide, by decide, by decide⟩

/-- `allowedBefore` at zero. -/
theorem allowedBefore_zero (allowed : String → Bool) (paths : List String) :
    allowedBefore allowed paths 0 = 0 := rfl

/-- `allowedBefore` across a kept head. -/
theorem allowedBefore_cons_true (allowed : String → Bool) (p : String)
    (rest : List String) (i : Nat) (hp : allowed p = true) :
    allowedBefore allowed (p :: rest) (i + 1) = 1 + allowedBefore allowed rest i := by
  simp [allowedBefore, List.take_succ_cons, List.filter_cons, hp]
  omega

/-- `allowedBefore` across a skipped head. -/
theorem allowedBefore_cons_false (allowed : String → Bool) (p : String)
    (rest : List String) (i : Nat) (hp : allowed p = false) :
    allowedBefore allowed (p :: rest) (i + 1) = allowedBefore allowed rest i := by
  simp [allowedBefore, List.take_succ_cons, List.filter_cons, hp]

/-- C8 amended: the spec scanner walks the fixed path list in order,
skipping robots-disallowed paths without a request, and returns the URL
and document of the first *successful, non-empty-body* response whose
body parses to a mapping with one of the keys `paths`/`swagger`/
`openapi`; every earlier allowed path was fetched and rejected. When no
path matches it returns null, and every allowed path was fetched and
rejected. -/
theorem C8_detect_first_accepted (jparse : String → Option Json)
    (oracle : Nat → Resp) (base : String) (allowed : String → Bool)
    (paths : List String) :
    ∀ count : Nat,
      (∀ u spec, (detectOpenapiLoop jparse oracle base allowed paths count).1 =
          some (u, spec) →
        ∃ i, i < paths.length ∧ allowed (paths.getD i "") = true ∧
          acceptSpec jparse (oracle (count + allowedBefore allowed paths i)) =
            some spec ∧
          u = base ++ paths.getD i "" ∧
          (∀ j, j < i → allowed (paths.getD j "") = true →
            acceptSpec jparse (oracle (count + allowedBefore allowed paths j)) =
              none)) ∧
      ((detectOpenapiLoop jparse oracle base allowed paths count).1 = none →
        ∀ i, i < paths.length → allowed (paths.getD i "") = true →
          acceptSpec jparse (oracle (count + allowedBefore allowed paths i)) =
            none) := by
  induction paths with
  | nil =>
    intro count
    constructor
    · intro u spec h
      simp [detectOpenapiLoop] at h
    · intro _ i hi
      simp at hi
  | cons p rest ih =>
    intro count
    by_cases hal : allowed p = true
    · by_cases hacc : ∃ spec0, acceptSpec jparse (oracle count) = some spec0
      · obtain ⟨spec0, hacc⟩ := hacc
        have hcond : ((oracle count).ok && ((oracle count).body ≠ "" : Bool)) = true := by
          by_contra hc
          rw [acceptSpec, if_neg hc] at hacc
          cases hacc
        have hparse : try_parse_spec jparse (oracle count).body = some spec0 := by
          rw [acceptSpec, if_pos hcond] at hacc
          exact hacc
        have hloop : detectOpenapiLoop jparse oracle base allowed (p :: rest) count =
            (some (base ++ p, spec0), count + 1) := by
          rw [detectOpenapiLoop]
          rw [hal]
          simp only [Bool.not_true, Bool.false_eq_true, if_false, clientRequest]
          rw [hcond]
          simp only [if_true, hparse]
        constructor
        · intro u spec h
          rw [hloop] at h
          simp only [Option.some.injEq, Prod.mk.injEq] at h
          refine ⟨0, by simp, by simpa using hal, ?_, ?_, ?_⟩
          · rw [allowedBefore_zero, Nat.add_zero, hacc, h.2]
          · simp [h.1]
          · intro j hj
            omega
        · intro h
          rw [hloop] at h
          cases h
      · have haccn : acceptSpec jparse (oracle count) = none := by
          cases hx : acceptSpec jparse (oracle count) with
          | none => rfl
          | some s => exact absurd ⟨s, hx⟩ hacc
        have hloop : detectOpenapiLoop jparse oracle base allowed (p :: rest) count =
            detectOpenapiLoop jparse oracle base allowed rest (count + 1) := by
          rw [detectOpenapiLoop]
          rw [hal]
          simp only [Bool.not_true, Bool.false_eq_true, if_false, clientRequest]
          by_cases hcond : ((oracle count).ok && ((oracle count).body ≠ "" : Bool)) = true
          · have hparse : try_parse_spec jparse (oracle count).body = none := by
              rw [acceptSpec, if_pos hcond] at haccn
              exact haccn
            rw [hcond]
            simp only [if_true, hparse]
          · rw [Bool.eq_false_iff.2 hcond]
            simp
        rw [hloop]
        constructor
        · intro u spec h
          obtain ⟨i, hi, hia, hiacc, hiu, hprev⟩ := (ih (count + 1)).1 u spec h
          refine ⟨i + 1, by simpa using hi, by simpa using hia, ?_, by simpa using hiu, ?_⟩
          · rw [allowedBefore_cons_true _ _ _ _ hal]
            rw [show count + (1 + allowedBefore allowed rest i) =
              count + 1 + allowedBefore allowed rest i from by omega]
            exact hiacc
          · intro j hj hja
            cases j with
            | zero =>
              rw [allowedBefore_zero, Nat.add_zero]
              exact haccn
            | succ k =>
              rw [allowedBefore_cons_true _ _ _ _ hal]
              rw [show count + (1 + allowedBefore allowed rest k) =
                count + 1 + allowedBefore allowed rest k from by omega]
              exact hprev k (by omega) (by simpa using hja)
        · intro h i hi hia
          cases i with
          | zero =>
            rw [allowedBefore_zero, Nat.add_zero]
            exact haccn
          | succ k =>
            rw [allowedBefore_cons_true _ _ _ _ hal]
            rw [show count + (1 + allowedBefore allowed rest k) =
              count + 1 + allowedBefore allowed rest k from by omega]
            exact (ih (count + 1)).2 h k (by simpa using hi) (by simpa using hia)
    · have hal' : allowed p = false := Bool.eq_false_iff.2 hal
      have hloop : detectOpenapiLoop jparse oracle base allowed (p :: rest) count =
          detectOpenapiLoop jparse oracle base allowed rest count := by
        rw [detectOpenapiLoop]
        rw [hal']
        simp
      rw [hloop]
      constructor
      · intro u spec h
        obtain ⟨i, hi, hia, hiacc, hiu, hprev⟩ := (ih count).1 u spec h
        refine ⟨i + 1, by simpa using hi, by simpa using hia, ?_, by simpa using hiu, ?_⟩
        · rw [allowedBefore_cons_false _ _ _ _ hal']
          exact hiacc
        · intro j hj hja
          cases j with
          | zero =>
            rw [List.getD_cons_zero] at hja
            exact absurd hja (by simp [hal'])
          | succ k =>
            rw [allowedBefore_cons_false _ _ _ _ hal']
            exact hprev k (by omega) (by simpa using hja)
      · intro h i hi hia
        cases i with
        | zero =>
          rw [List.getD_cons_zero] at hia
          exact absurd hia (by simp [hal'])
        | succ k =>
          rw [allowedBefore_cons_false _ _ _ _ hal']
          exact (ih count).2 h k (by simpa using hi) (by simpa using hia)

/-- Witness for C8 on a concrete wire (all paths allowed; the first
response is rejected for its 404 status, the second accepted). -/
theorem C8_detect_first_accepted_witness :
    (detectOpenapiLoop c8Jparse c8Oracle "http://x.test" (fun _ => true)
        SWAGGER_PATHS 0).1 = some ("http://x.test/openapi.json", c8Spec) ∧
    ∃ i, i < SWAGGER_PATHS.length ∧
      (fun _ => true) (SWAGGER_PATHS.getD i "") = true ∧
      acceptSpec c8Jparse
        (c8Oracle (0 + allowedBefore (fun _ => true) SWAGGER_PATHS i)) =
        some c8Spec ∧
      "http://x.test/openapi.json" = "http://x.test" ++ SWAGGER_PATHS.getD i "" ∧
      (∀ j, j < i → (fun _ => true) (SWAGGER_PATHS.getD j "") = true →
        acceptSpec c8Jparse
          (c8Oracle (0 + allowedBefore (fun _ => true) SWAGGER_PATHS j)) = none) := by
  have h : (detectOpenapiLoop c8Jparse c8Oracle "http://x.test" (fun _ => true)
      SWAGGER_PATHS 0).1 = some ("http://x.test/openapi.json", c8Spec) := rfl
  exact ⟨h, (C8_detect_first_accepted c8Jparse c8Oracle "http://x.test"
    (fun _ => true) SWAGGER_PATHS 0).1 "http://x.test/openapi.json" c8Spec h⟩

/-! ## C6 — auth derivation for strategy observations -/

/-- Modelled from the claim's wording, for comparison with the source:
derive the hint from `WWW-Authenticate` by matching the tokens `bearer`,
`basic` and `api_key` case-insensitively, falling back to the first
whitespace-delimited token of the header otherwise. -/
def claimedAuthHint (www_auth : String) : String :=
  if strContains (pyLower www_auth) "bearer" then "bearer"
  else if strContains (pyLower www_auth) "basic" then "basic"
  else if strContains (pyLower www_auth) "api_key" then "api_key"
  else (pySplitWs www_auth).headD ""

/-- A 401 observation carrying an API-key challenge, for the C6
counterexample. -/
def c6Resp : Resp :=
  { method := "HEAD",
    status_code := 401,
    headers := [("WWW-Authenticate", "ApiKey realm=z")],
    body := "",
    content_type := "",
    elapsed_ms := 0,
    error := "" }

/-- The empty per-service store. -/
def emptyDb : SvcDb :=
  { service := none, endpoints := [], responses := [], parameters := [] }

/-- C6 counterexample: for a strategy observation answered `401` with
`WWW-Authenticate: ApiKey realm=z`, the ingestion stores an empty
`auth_type_hint` — the claim's derivation (api_key token /
first-token fallback) would store a non-empty one. The `api_key` token
and the fallback exist only in the method-testing phase. -/
theorem C6_ingestion_hint_not_as_claimed :
    (process_results (fun _ => none) emptyDb [("/x", c6Resp)]
        "wordlist").endpoints.map (fun e => e.auth_type_hint) = [""] ∧
    claimedAuthHint "ApiKey realm=z" = "ApiKey" ∧
    methodTesterHint "ApiKey realm=z" = "api_key" ∧
    ("" : String) ≠ "ApiKey" := by
  refine ⟨by decide, by decide, by decide, by decide⟩

/-- C6 amended: for every observation produced by the wordlist, pattern
and link-follow strategies and ingested by the orchestrator under a
fresh path, the stored row has `auth_required` set iff the response
status is 401 or 403, and `auth_type_hint` equal to `bearer` or `basic`
on a case-insensitive substring match of `WWW-Authenticate` and empty
otherwise — the `api_key` match (substring `api`) and the
first-whitespace-token fallback are applied only by the method-testing
phase, and spec-scan endpoints are ingested without any auth
derivation. -/
theorem C6_strategy_auth_derivation (jparse : String → Option Json)
    (db : SvcDb) (path : String) (resp : Resp) (tag : String)
    (hfresh : findRow db.endpoints path = none) :
    (findRow (process_results jparse db [(path, resp)] tag).endpoints path).map
        (fun e => (e.auth_required, e.auth_type_hint)) =
      some ((resp.status_code = 401 || resp.status_code = 403 : Bool),
        if (resp.status_code = 401 || resp.status_code = 403 : Bool) = true then
          processHint (assocGetD resp.headers "WWW-Authenticate" "")
        else "") := by
  have hstep : (process_results jparse db [(path, resp)] tag).endpoints =
      upsert_endpoint db.endpoints
        { path := path,
          methods := if resp.method ≠ "" then [resp.method] else [],
          status_codes := [resp.status_code],
          auth_required := (resp.status_code = 401 || resp.status_code = 403 : Bool),
          auth_type_hint :=
            if (resp.status_code = 401 || resp.status_code = 403 : Bool) = true then
              processHint (assocGetD resp.headers "WWW-Authenticate" "")
            else "",
          content_types :=
            if resp.content_type ≠ "" then
              if pyStrip (headBefore ';' resp.content_type) ≠ "" then
                [pyStrip (headBefore ';' resp.content_type)]
              else []
            else [],
          discovered_by := tag } := by
    simp only [process_results, List.foldl_cons, List.foldl_nil]
    split <;> rfl
  rw [hstep]
  have h : findRow (upsert_endpoint db.endpoints
      { path := path,
        methods := if resp.method ≠ "" then [resp.method] else [],
        status_codes := [resp.status_code],
        auth_required := (resp.status_code = 401 || resp.status_code = 403 : Bool),
        auth_type_hint :=
          if (resp.status_code = 401 || resp.status_code = 403 : Bool) = true then
            processHint (assocGetD resp.headers "WWW-Authenticate" "")
          else "",
        content_types :=
          if resp.content_type ≠ "" then
            if pyStrip (headBefore ';' resp.content_type) ≠ "" then
              [pyStrip (headBefore ';' resp.content_type)]
            else []
          else [],
        discovered_by := tag }) path =
      some ((findRow db.endpoints path).elim
        (freshRow
          { path := path,
            methods := if resp.method ≠ "" then [resp.method] else [],
            status_codes := [resp.status_code],
            auth_required := (resp.status_code = 401 || resp.status_code = 403 : Bool),
            auth_type_hint :=
              if (resp.status_code = 401 || resp.status_code = 403 : Bool) = true then
                processHint (assocGetD resp.headers "WWW-Authenticate" "")
              else "",
            content_types :=
              if resp.content_type ≠ "" then
                if pyStrip (headBefore ';' resp.content_type) ≠ "" then
                  [pyStrip (headBefore ';' resp.content_type)]
                else []
              else [],
            discovered_by := tag })
        (fun e => mergeRow e
          { path := path,
            methods := if resp.method ≠ "" then [resp.method] else [],
            status_codes := [resp.status_code],
            auth_required := (resp.status_code = 401 || resp.status_code = 403 : Bool),
            auth_type_hint :=
              if (resp.status_code = 401 || resp.status_code = 403 : Bool) = true then
                processHint (assocGetD resp.headers "WWW-Authenticate" "")
              else "",
            content_types :=
              if resp.content_type ≠ "" then
                if pyStrip (headBefore ';' resp.content_type) ≠ "" then
                  [pyStrip (headBefore ';' resp.content_type)]
                else []
              else [],
            discovered_by := tag })) :=
    findRow_upsert_self db.endpoints _
  rw [hfresh] at h
  rw [h]
  rfl

/-- Witness for C6 at the concrete 401 observation. -/
theorem C6_strategy_auth_derivation_witness :
    (findRow (process_results (fun _ => none) emptyDb [("/x", c6Resp)]
        "wordlist").endpoints "/x").map
      (fun e => (e.auth_required, e.auth_type_hint)) =
      some ((c6Resp.status_code = 401 || c6Resp.status_code = 403 : Bool),
        if (c6Resp.status_code = 401 || c6Resp.status_code = 403 : Bool) = true then
          processHint (assocGetD c6Resp.headers "WWW-Authenticate" "")
        else "") :=
  C6_strategy_auth_derivation (fun _ => none) emptyDb "/x" c6Resp "wordlist" rfl

/-! ## C1 — request budget accounting -/

/-- `test_methods` issues exactly one request per method in its list. -/
theorem testMethodsLoop_count (oracle : Nat → Resp) :
    ∀ (ms : List String) (st : MTState) (c : Nat),
      (testMethodsLoop oracle ms st c).2 = c + ms.length := by
  intro ms
  induction ms with
  | nil =>
    intro st c
    rfl
  | cons m rest ih =>
    intro st c
    show (testMethodsLoop oracle rest _ (c + 1)).2 = c + (rest.length + 1)
    rw [ih]
    omega

/-- The request cost of one `test_methods` batch: 3 safe or 7 full
methods. -/
theorem test_methods_count (oracle : Nat → Resp) (c : Nat) (sd : Bool) :
    (test_methods oracle c sd).2 = c + (if sd then 3 else 7) := by
  cases sd
  · show (testMethodsLoop oracle ALL_METHODS
      { supported := [], status_codes := [], auth_required := false,
        auth_type_hint := "", allow_header := "", content_types := [] } c).2 = c + 7
    rw [testMethodsLoop_count]
    rfl
  · show (testMethodsLoop oracle SAFE_METHODS
      { supported := [], status_codes := [], auth_required := false,
        auth_type_hint := "", allow_header := "", content_types := [] } c).2 = c + 3
    rw [testMethodsLoop_count]
    rfl

/-- Budget bound of the shared wordlist/pattern loop: with a non-zero
budget, the counter never passes `max_requests + 1` — the per-path check
admits at most a HEAD plus its 405-triggered GET retry beyond the
budget. -/
theorem probePathsLoop_le (oracle : Nat → Resp) (max_requests : Nat)
    (allowed : String → Bool) (hmr : 1 ≤ max_requests) :
    ∀ (paths known : List String) (count : Nat),
      (probePathsLoop oracle max_requests allowed paths known count).2.2 ≤
        max count (max_requests + 1) := by
  intro paths
  induction paths with
  | nil =>
    intro known count
    exact Nat.le_max_left _ _
  | cons p rest ih =>
    intro known count
    by_cases hbreak : (max_requests ≠ 0 && count ≥ max_requests) = true
    · rw [probePathsLoop, if_pos hbreak]
      exact Nat.le_max_left _ _
    · have hlt : count < max_requests := by
        by_contra hc
        apply hbreak
        have h1 : max_requests ≠ 0 := by omega
        have h2 : count ≥ max_requests := Nat.le_of_not_lt hc
        simp [h1, h2]
      rw [probePathsLoop, if_neg hbreak]
      by_cases hknown : known.contains p = true
      · rw [if_pos hknown]
        exact ih known count
      · rw [if_neg hknown]
        by_cases hal : (!allowed p) = true
        · rw [if_pos hal]
          exact ih known count
        · rw [if_neg hal]
          simp only [clientRequest]
          by_cases h405 : (oracle count).status_code = 405
          · simp only [h405, if_true, if_pos]
            by_cases hfound : ((oracle (count + 1)).status_code > 0 &&
                (oracle (count + 1)).status_code ≠ 404) = true
            · rw [if_pos hfound]
              have h2 := ih (known ++ [p]) (count + 1 + 1)
              have hc2 : count + 1 + 1 ≤ max_requests + 1 := by omega
              calc (probePathsLoop oracle max_requests allowed rest
                    (known ++ [p]) (count + 1 + 1)).2.2 ≤
                  max (count + 1 + 1) (max_requests + 1) := h2
                _ = max_requests + 1 := Nat.max_eq_right hc2
                _ ≤ max count (max_requests + 1) := Nat.le_max_right _ _
            · rw [if_neg hfound]
              have h2 := ih known (count + 1 + 1)
              have hc2 : count + 1 + 1 ≤ max_requests + 1 := by omega
              calc (probePathsLoop oracle max_requests allowed rest
                    known (count + 1 + 1)).2.2 ≤
                  max (count + 1 + 1) (max_requests + 1) := h2
                _ = max_requests + 1 := Nat.max_eq_right hc2
                _ ≤ max count (max_requests + 1) := Nat.le_max_right _ _
          · simp only [h405, if_false, if_neg]
            by_cases hfound : ((oracle count).status_code > 0 &&
                (oracle count).status_code ≠ 404) = true
            · rw [if_pos hfound]
              have h2 := ih (known ++ [p]) (count + 1)
              have hc2 : count + 1 ≤ max_requests + 1 := by omega
              calc (probePathsLoop oracle max_requests allowed rest
                    (known ++ [p]) (count + 1)).2.2 ≤
                  max (count + 1) (max_requests + 1) := h2
                _ = max_requests + 1 := Nat.max_eq_right hc2
                _ ≤ max count (max_requests + 1) := Nat.le_max_right _ _
            · rw [if_neg hfound]
              have h2 := ih known (count + 1)
              have hc2 : count + 1 ≤ max_requests + 1 := by omega
              calc (probePathsLoop oracle max_requests allowed rest
                    known (count + 1)).2.2 ≤
                  max (count + 1) (max_requests + 1) := h2
                _ = max_requests + 1 := Nat.max_eq_right hc2
                _ ≤ max count (max_requests + 1) := Nat.le_max_right _ _

/-- Budget bound of the method-testing phase: the per-endpoint check
admits one full unchecked batch of at most 7 requests beyond `count <
max_requests`, so the counter never passes `max_requests + 6`. -/
theorem methodPhaseLoop_le (oracle : Nat → Resp) (sd : Bool)
    (max_requests : Nat) (stop : Bool) :
    ∀ (eps : List EndpointRow) (db : SvcDb) (count : Nat),
      (methodPhaseLoop oracle sd max_requests stop eps db count).2 ≤
        max count (max_requests + 6) := by
  intro eps
  induction eps with
  | nil =>
    intro db count
    exact Nat.le_max_left _ _
  | cons ep rest ih =>
    intro db count
    by_cases hck : check_limits count max_requests stop = true
    · rw [methodPhaseLoop, if_pos hck]
      exact Nat.le_max_left _ _
    · have hlt : count < max_requests := by
        by_contra hc
        apply hck
        simp [check_limits, Nat.le_of_not_lt hc]
      cases htm : test_methods oracle count sd with
      | mk info cnt =>
        have hle : cnt ≤ max_requests + 6 := by
          have h := test_methods_count oracle count sd
          rw [htm] at h
          cases sd <;> simp at h <;> omega
        rw [methodPhaseLoop, if_neg hck]
        simp only [htm]
        refine le_trans (ih _ _) ?_
        rw [Nat.max_eq_right hle]
        exact Nat.le_max_right _ _

/-- Budget bound of the schema-extraction phase: one checked `GET` per
endpoint keeps the counter within `max_requests`. -/
theorem schemaPhaseLoop_le (jparse : String → Option Json)
    (extractParams : String → List (String × Bool)) (oracle : Nat → Resp)
    (max_requests : Nat) (stop : Bool) :
    ∀ (eps : List EndpointRow) (db : SvcDb) (count : Nat),
      (schemaPhaseLoop jparse extractParams oracle max_requests stop
          eps db count).2 ≤ max count max_requests := by
  intro eps
  induction eps with
  | nil =>
    intro db count
    exact Nat.le_max_left _ _
  | cons ep rest ih =>
    intro db count
    by_cases hck : check_limits count max_requests stop = true
    · rw [schemaPhaseLoop, if_pos hck]
      exact Nat.le_max_left _ _
    · have hlt : count < max_requests := by
        by_contra hc
        apply hck
        simp [check_limits, Nat.le_of_not_lt hc]
      rw [schemaPhaseLoop, if_neg hck]
      by_cases hget : (!ep.methods.contains "GET") = true
      · rw [if_pos hget]
        exact ih db count
      · rw [if_neg hget]
        simp only [clientRequest]
        have hnext : ∀ (d : SvcDb),
            (schemaPhaseLoop jparse extractParams oracle max_requests stop
              rest d (count + 1)).2 ≤ max count max_requests := by
          intro d
          refine le_trans (ih d (count + 1)) ?_
          have h1 : count + 1 ≤ max_requests := hlt
          rw [Nat.max_eq_right h1]
          exact Nat.le_max_right _ _
        by_cases hok : ((oracle count).ok && (oracle count).body ≠ "") = true
        · rw [if_pos hok]
          cases hsc : extract_schema_from_body jparse (oracle count).body with
          | some schema =>
            exact hnext _
          | none =>
            exact hnext _
        · rw [if_neg hok]
          by_cases herr : (((oracle count).status_code = 400 ||
              (oracle count).status_code = 422) && (oracle count).body ≠ "") = true
          · rw [if_pos herr]
            exact hnext _
          · rw [if_neg herr]
            exact hnext _

/-- C1 amended: the worker's `request_count` is incremented exactly once
per issued request, but the `max_requests + 1` ceiling only holds inside
the wordlist and pattern loops (whose per-path check admits the single
HEAD→GET retry); the method-testing phase checks only per endpoint and
then issues an unchecked batch of 3 resp. 7 requests, pushing the
counter up to `max_requests + 6`, the schema phase stays within
`max_requests`, and the spec scan and link-follow phases run entire path
lists without any mid-phase budget check — so a run's final count can
exceed `max_requests + 1`. -/
theorem C1_budget_bounds :
    (∀ (oracle : Nat → Resp) (max_requests : Nat) (allowed : String → Bool)
        (paths known : List String) (count : Nat), 1 ≤ max_requests →
      (probePathsLoop oracle max_requests allowed paths known count).2.2 ≤
        max count (max_requests + 1)) ∧
    (∀ (oracle : Nat → Resp) (sd : Bool) (max_requests : Nat) (stop : Bool)
        (eps : List EndpointRow) (db : SvcDb) (count : Nat),
      (methodPhaseLoop oracle sd max_requests stop eps db count).2 ≤
        max count (max_requests + 6)) ∧
    (∀ (jparse : String → Option Json)
        (extractParams : String → List (String × Bool)) (oracle : Nat → Resp)
        (max_requests : Nat) (stop : Bool) (eps : List EndpointRow)
        (db : SvcDb) (count : Nat),
      (schemaPhaseLoop jparse extractParams oracle max_requests stop
          eps db count).2 ≤ max count max_requests) ∧
    (∀ (oracle : Nat → Resp) (c : Nat) (sd : Bool),
      (test_methods oracle c sd).2 = c + (if sd then 3 else 7)) := by
  refine ⟨?_, ?_, ?_, ?_⟩
  · intro oracle max_requests allowed paths known count h
    exact probePathsLoop_le oracle max_requests allowed h paths known count
  · intro oracle sd max_requests stop eps db count
    exact methodPhaseLoop_le oracle sd max_requests stop eps db count
  · intro jparse extractParams oracle max_requests stop eps db count
    exact schemaPhaseLoop_le jparse extractParams oracle max_requests stop eps db count
  · intro oracle c sd
    exact test_methods_count oracle c sd

/-- An all-200 wire used by the run-level examples. -/
def cxOracle : Nat → Resp :=
  fun _ =>
    { method := "GET",
      status_code := 200,
      headers := [],
      body := "",
      content_type := "",
      elapsed_ms := 0,
      error := "" }

/-- Witness for C1 at a concrete wordlist loop. -/
theorem C1_budget_bounds_witness :
    1 ≤ 2 ∧
    (probePathsLoop cxOracle 2 (fun _ => true) ["/a", "/b", "/c"] [] 0).2.2 ≤
      max 0 (2 + 1) :=
  ⟨by decide,
    C1_budget_bounds.1 cxOracle 2 (fun _ => true) ["/a", "/b", "/c"] [] 0 (by decide)⟩

/-- A pre-existing endpoint row making the method phase enter its batch. -/
def cxRow : EndpointRow :=
  { path := "/a",
    methods := [],
    status_codes := [],
    auth_required := false,
    auth_type_hint := "",
    content_types := [],
    discovered_by := "" }

/-- A store already holding one endpoint for the probed service. -/
def cxDb : SvcDb :=
  { service := none, endpoints := [cxRow], responses := [], parameters := [] }

/-- A robots layer that failed to load and allows everything. -/
def cxRobots : RobotsModel :=
  { load_ok := false, raw := "", crawl_delay_ms := none, allowed := fun _ => true }

/-- The configuration of the C1/C2 run-level examples: budget 2, no
strategy phases. -/
def cxConfig : Config :=
  { max_requests := 2, strategies := [] }

/-- C1 counterexample: a full probe run against a service with one known
endpoint and `max_requests = 2` issues 4 requests — the base probe plus
one unchecked 3-request method batch — exceeding `max_requests + 1`. -/
theorem C1_run_exceeds_budget_plus_one :
    (probe (fun _ => none) (fun _ => []) cxOracle cxConfig false cxRobots false
      "http://x.test" (some "x.test") none cxDb).count = 4 ∧
    cxConfig.max_requests + 1 < 4 := by
  refine ⟨by decide, by decide⟩

/-! ## C2 — stop/budget semantics of a run -/

/-- C2 counterexample: with the stop sentinel present for the whole run,
every phase after the base probe is skipped, yet the run is finalized
with status `completed` — the code never writes `stopped`. -/
theorem C2_run_finalizes_completed_not_stopped :
    (probe (fun _ => none) (fun _ => []) cxOracle cxConfig false cxRobots true
      "http://x.test" (some "x.test") none cxDb).run.status = "completed" ∧
    (probe (fun _ => none) (fun _ => []) cxOracle cxConfig false cxRobots true
      "http://x.test" (some "x.test") none cxDb).count = 1 ∧
    ("completed" : String) ≠ "stopped" := by
  refine ⟨by decide, by decide, by decide⟩

set_option maxHeartbeats 4000000 in
/-- C2 amended: whenever the stop sentinel is present during a run (and
likewise when the budget is exhausted, both through `_check_limits`),
every phase guard fires: after the base probe no further request is
issued and the endpoint/response/parameter tables are untouched — but
the run is finalized with status `completed`, not `stopped`: the
orchestrator never writes `stopped` (phase-0 failure aside, which writes
`error`). -/
theorem C2_stop_skips_phases_but_completes (jparse : String → Option Json)
    (extractParams : String → List (String × Bool)) (oracle : Nat → Resp)
    (cfg : Config) (rrt : Bool) (rm : RobotsModel) (url : String)
    (host : Option String) (depth : Option Nat) (db0 : SvcDb)
    (h0 : (oracle 0).status_code > 0) :
    ((probe jparse extractParams oracle cfg rrt rm true url host depth db0).count,
     (probe jparse extractParams oracle cfg rrt rm true url host depth db0).run.status,
     (probe jparse extractParams oracle cfg rrt rm true url host depth db0).run.finished_at_set,
     (probe jparse extractParams oracle cfg rrt rm true url host depth db0).run.total_requests,
     (probe jparse extractParams oracle cfg rrt rm true url host depth db0).db.endpoints,
     (probe jparse extractParams oracle cfg rrt rm true url host depth db0).db.responses,
     (probe jparse extractParams oracle cfg rrt rm true url host depth db0).db.parameters) =
    (1, "completed", true, 1, db0.endpoints, db0.responses, db0.parameters) := by
  have hcl : ∀ c m, check_limits c m true = true := by
    intro c m
    simp [check_limits]
  cases rrt with
  | false =>
    simp [probe, clientRequest, hcl, if_pos h0, update_probe_run, create_probe_run,
      terminalStatuses, apply_ite SvcDb.endpoints, apply_ite SvcDb.responses,
      apply_ite SvcDb.parameters, ite_self]
  | true =>
    by_cases hld : rm.load_ok = true
    · simp [probe, clientRequest, hcl, if_pos h0, update_probe_run,
        create_probe_run, terminalStatuses, hld, apply_ite SvcDb.endpoints,
        apply_ite SvcDb.responses, apply_ite SvcDb.parameters, ite_self]
    · simp [probe, clientRequest, hcl, if_pos h0, update_probe_run,
        create_probe_run, terminalStatuses, hld, apply_ite SvcDb.endpoints,
        apply_ite SvcDb.responses, apply_ite SvcDb.parameters, ite_self]

/-- Witness for C2 at a concrete stopped run. -/
theorem C2_stop_skips_phases_but_completes_witness :
    ((probe (fun _ => none) (fun _ => []) cxOracle cxConfig false cxRobots true
        "http://x.test" (some "x.test") none cxDb).count,
     (probe (fun _ => none) (fun _ => []) cxOracle cxConfig false cxRobots true
        "http://x.test" (some "x.test") none cxDb).run.status,
     (probe (fun _ => none) (fun _ => []) cxOracle cxConfig false cxRobots true
        "http://x.test" (some "x.test") none cxDb).run.finished_at_set,
     (probe (fun _ => none) (fun _ => []) cxOracle cxConfig false cxRobots true
        "http://x.test" (some "x.test") none cxDb).run.total_requests,
     (probe (fun _ => none) (fun _ => []) cxOracle cxConfig false cxRobots true
        "http://x.test" (some "x.test") none cxDb).db.endpoints,
     (probe (fun _ => none) (fun _ => []) cxOracle cxConfig false cxRobots true
        "http://x.test" (some "x.test") none cxDb).db.responses,
     (probe (fun _ => none) (fun _ => []) cxOracle cxConfig false cxRobots true
        "http://x.test" (some "x.test") none cxDb).db.parameters) =
    (1, "completed", true, 1, cxDb.endpoints, cxDb.responses, cxDb.parameters) :=
  C2_stop_skips_phases_but_completes (fun _ => none) (fun _ => []) cxOracle
    cxConfig false cxRobots "http://x.test" (some "x.test") none cxDb (by decide)
